import Mathlib

/-!
# notion-github-integration: a verification development of `src/index.js`

A shallow embedding of the synchroniser's pure and sequential parts:

* the destination reader `getIssuesFromNotionDatabase` (title regular
  expression, `parseInt`),
* the diff engine `getNotionOperations`,
* the field mapper `getPropertiesFromIssue`, `getIssueStatus`, `getAssignees`,
* the cursor pagination loops `getPages` and `getUserList`,
* the batch writers `createPages` and `updatePages` (lodash `_.chunk`).

Conventions of the embedding.

* JavaScript strings are `String`; the regular expression and `parseInt` work
  on the character list `String.data`.  The pattern of the program has no `u`
  flag, so it runs over UTF-16 code units; every position at which it can
  start or stop a group is next to an ASCII character or at a boundary reached
  by a run of `.`, so reading code points instead gives the same groups.
* JavaScript numbers that the program handles are issue numbers: they are
  integers, modelled exactly (`Nat`, `Int`).  This is the behaviour of doubles
  on safe integers only (up to `2 ^ 53 - 1`): above them `parseInt` rounds to
  the nearest double, and from `1e21` the template literal prints the exponent
  form.  Statements that depend on the value or the text of a number carry
  the bound `MAX_SAFE_INTEGER`.
* `undefined` results of lookups are `Option.none` or `JSVal.undefined`;
  a thrown `TypeError` and a rejected promise are `Except.error`.
* Module state (`gitHubIssuesIdToNotionPageId`, `process.env`) and the remote
  services are explicit arguments.
-/

namespace NotionGithub

/-! ## JavaScript values -/

/-- The JavaScript values the index records of the program can hold. -/
inductive JSVal where
  | undefined
  | str (s : String)
  | num (n : Int)
  | nan
  deriving DecidableEq, Repr

/-- JavaScript `ToBoolean`. -/
def JSVal.truthy : JSVal → Bool
  | .undefined => false
  | .str s => decide (s ≠ "")
  | .num n => decide (n ≠ 0)
  | .nan => false

/-- JavaScript `===`: no coercion, and `NaN` is not equal to itself. -/
def JSVal.strictEq : JSVal → JSVal → Bool
  | .undefined, .undefined => true
  | .str a, .str b => decide (a = b)
  | .num a, .num b => decide (a = b)
  | _, _ => false

/-- A plain JavaScript object: its own properties in creation order. -/
abbrev JSObject := List (String × JSVal)

/-- Property read `obj.key`: the value stored under the key, `undefined` when
the object has no such property. -/
def JSObject.get (obj : JSObject) (key : String) : JSVal :=
  match obj.find? (fun kv => decide (kv.1 = key)) with
  | some kv => kv.2
  | none => JSVal.undefined

/-- Errors a run can end with. -/
inductive JSError where
  | typeError
  | rejected
  deriving DecidableEq, Repr

/-! ## Data model -/

/-- A GitHub assignee as the program reads it (`assigne.login`). -/
structure Assignee where
  login : String
  deriving DecidableEq, Repr

/-- The canonical issue record built by `getGitHubIssuesForRepository`. -/
structure Issue where
  number : Nat
  title : String
  state : String
  comment_count : Nat
  url : String
  assignees : List Assignee
  deriving DecidableEq, Repr

/-- A Notion user of the snapshot returned by `getUserList`. -/
structure User where
  id : String
  name : String
  deriving DecidableEq, Repr

/-- An entry of a Notion `people` property: `{ id }`. -/
structure Person where
  id : String
  deriving DecidableEq, Repr

/-- A Notion rich text item, read through `.text.content`. -/
structure RichText where
  content : String
  deriving DecidableEq, Repr

/-- An entry of a Notion `relation` property: `{ id }`. -/
structure Relation where
  id : String
  deriving DecidableEq, Repr

/-- A page of the task database as `getIssuesFromNotionDatabase` reads it:
`page.id`, `page.properties.Task.title` and
`page.properties.Projects.relation`. -/
structure Page where
  id : String
  Task : List RichText
  Projects : List Relation
  deriving DecidableEq, Repr

/-- The property payload built by `getPropertiesFromIssue`. -/
structure Properties where
  Task : List RichText
  Status : String
  Assign : List Person
  Projects : List Relation
  deriving DecidableEq, Repr

/-- An element of `pagesToUpdate`: the issue spread, plus `pageId`. -/
structure PageToUpdate where
  issue : Issue
  pageId : JSVal
  deriving DecidableEq, Repr

/-- The result object of `getNotionOperations`. -/
structure Operations where
  pagesToCreate : List Issue
  pagesToUpdate : List PageToUpdate
  deriving DecidableEq, Repr

/-- The part of `process.env` the modelled functions read. -/
structure Env where
  NOTION_DATABASE_TASKS_ID : Option String
  GITHUB_USERNAMES : Option String
  NOTION_USERNAMES : Option String
  deriving DecidableEq, Repr

/-- The constant `OPERATION_BATCH_SIZE` of the program. -/
def OPERATION_BATCH_SIZE : Nat := 10

/-! ## The title regular expression `/(.{1,})#(\w{1,}):/` -/

/-- ECMAScript line terminators: the characters `.` does not match. -/
def isLineTerminator (c : Char) : Bool :=
  c.toNat = 0x0A || c.toNat = 0x0D || c.toNat = 0x2028 || c.toNat = 0x2029

/-- The class `\w` without the `i` and `u` flags: `[A-Za-z0-9_]`. -/
def isWordChar (c : Char) : Bool :=
  c.isAlphanum || c = '_'

/-- Backtracking match of `\w{1,}:` at the head of the input; the result is
the text of the `\w{1,}` group.  The quantifier is greedy: after one word
character the matcher first tries to take more, and only when that fails
does it go on to the `:`. -/
def matchWordColon : List Char → Option (List Char)
  | [] => none
  | c :: rest =>
    if isWordChar c then
      match matchWordColon rest with
      | some g => some (c :: g)
      | none => if rest.head? = some ':' then some [c] else none
    else none

/-- Match of `#(\w{1,}):` at the head of the input; the result is group 2. -/
def matchHash : List Char → Option (List Char)
  | [] => none
  | c :: rest => if c = '#' then matchWordColon rest else none

/-- Backtracking match of the whole pattern `(.{1,})#(\w{1,}):` at the head of
the input; the result is (group 1, group 2).  `.{1,}` is greedy: after one
character that is no line terminator the matcher first tries to take more,
and only when that fails does it go on to `#(\w{1,}):`. -/
def matchPattern : List Char → Option (List Char × List Char)
  | [] => none
  | c :: rest =>
    if isLineTerminator c then none
    else
      match matchPattern rest with
      | some (g1, g2) => some (c :: g1, g2)
      | none =>
        match matchHash rest with
        | some g2 => some ([c], g2)
        | none => none

/-- The call `regexp.exec(pageTitle)` on a fresh regular expression
(`lastIndex = 0`): the match at the leftmost start position that has one,
as (`matches[1]`, `matches[2]`); `none` is the `null` result. -/
def regexpExec : List Char → Option (List Char × List Char)
  | [] => none
  | c :: rest =>
    match matchPattern (c :: rest) with
    | some m => some m
    | none => regexpExec rest

/-! ## `parseInt` and number formatting -/

/-- The characters `parseInt` skips at the start: ECMAScript `WhiteSpace` and
`LineTerminator`. -/
def isStrWhiteSpaceChar (c : Char) : Bool :=
  c.toNat = 0x09 || c.toNat = 0x0A || c.toNat = 0x0B || c.toNat = 0x0C ||
  c.toNat = 0x0D || c.toNat = 0x20 || c.toNat = 0xA0 || c.toNat = 0x1680 ||
  (decide (0x2000 ≤ c.toNat) && decide (c.toNat ≤ 0x200A)) ||
  c.toNat = 0x2028 || c.toNat = 0x2029 || c.toNat = 0x202F ||
  c.toNat = 0x205F || c.toNat = 0x3000 || c.toNat = 0xFEFF

/-- The value of a character as a digit of the given radix, if it is one. -/
def digitValue (radix : Nat) (c : Char) : Option Nat :=
  let v : Option Nat :=
    if c.isDigit then some (c.toNat - 48)
    else if c.isLower then some (c.toNat - 87)
    else if c.isUpper then some (c.toNat - 55)
    else none
  match v with
  | some d => if d < radix then some d else none
  | none => none

/-- The value of the longest run of radix digits at the head of the input,
continuing from the value read so far. -/
def parseDigits (radix : Nat) : List Char → Nat → Nat
  | [], acc => acc
  | c :: rest, acc =>
    match digitValue radix c with
    | some d => parseDigits radix rest (acc * radix + d)
    | none => acc

/-- The sign step of `parseInt`: an optional leading `-` or `+`. -/
def parseSign : List Char → Int × List Char
  | [] => (1, [])
  | c :: rest =>
    if c = '-' then (-1, rest)
    else if c = '+' then (1, rest)
    else (1, c :: rest)

/-- The radix step of `parseInt` without a radix argument: 16 after a leading
`0x` or `0X` (which is dropped), else 10. -/
def parseRadix : List Char → Nat × List Char
  | c :: d :: rest =>
    if c = '0' ∧ (d = 'x' ∨ d = 'X') then (16, rest) else (10, c :: d :: rest)
  | s => (10, s)

/-- JavaScript `parseInt(string)`: skip white space, read a sign and a radix
mark, then the longest run of digits; `NaN` when there is no digit.  The value
is the exact integer of the digit run, which is what JavaScript returns when
that integer is at most `2 ^ 53 - 1`; above it JavaScript returns the nearest
double. -/
def parseInt (s : List Char) : JSVal :=
  let s1 := s.dropWhile isStrWhiteSpaceChar
  let (sign, s2) := parseSign s1
  let (radix, s3) := parseRadix s2
  match s3 with
  | [] => JSVal.nan
  | c :: _ =>
    match digitValue radix c with
    | none => JSVal.nan
    | some _ => JSVal.num (sign * (parseDigits radix s3 0 : Nat))

/-- JavaScript `ToString` of a non-negative integer, as the template literal
applies it to `number`: the decimal digits.  This is what JavaScript prints
for the safe integers (up to `2 ^ 53 - 1`); from `1e21` it prints the exponent
form (`1e+21`), which this definition does not give. -/
def numberToString (n : Nat) : String :=
  Nat.repr n

/-! ## Destination reader -/

/-- The object literal pushed by `getIssuesFromNotionDatabase`. -/
def notionIssue (pageId : String) (issueNumber : JSVal) (projectID : String)
    (repo : String) : JSObject :=
  [("pageId", JSVal.str pageId), ("issueNumber", issueNumber),
   ("projectID", JSVal.str projectID), ("repo", JSVal.str repo)]

/-- The `for (const page of pages)` loop of `getIssuesFromNotionDatabase`,
with the array `issues` built so far.  `title[0].text` and `relation[0].id`
throw a `TypeError` when the array is empty. -/
def getIssuesLoop : List Page → List JSObject → Except JSError (List JSObject)
  | [], issues => Except.ok issues
  | page :: rest, issues =>
    match page.Task with
    | [] => Except.error JSError.typeError
    | first :: _ =>
      let pageTitle := first.content
      match regexpExec pageTitle.data with
      | some (m1, m2) =>
        match page.Projects with
        | [] => Except.error JSError.typeError
        | rel :: _ =>
          getIssuesLoop rest
            (issues ++ [notionIssue page.id (parseInt m2) rel.id (String.mk m1)])
      | none => getIssuesLoop rest issues

/-- The function `getIssuesFromNotionDatabase`, on the pages that
`getPages(taskDatabaseID)` returned. -/
def getIssuesFromNotionDatabase (pages : List Page) : Except JSError (List JSObject) :=
  getIssuesLoop pages []

/-! ## Diff engine -/

/-- The body of `for (const issue of issues)` in `getNotionOperations`. -/
def classifyIssue (notionIssues : List JSObject) (ops : Operations) (issue : Issue) :
    Operations :=
  match notionIssues.find?
      (fun o => JSVal.strictEq (o.get "issueNumber") (JSVal.num issue.number)) with
  | some obj =>
    let pageId := obj.get "pageID"
    if pageId.truthy then
      { ops with pagesToUpdate := ops.pagesToUpdate ++ [{ issue := issue, pageId := pageId }] }
    else
      { ops with pagesToCreate := ops.pagesToCreate ++ [issue] }
  | none => { ops with pagesToCreate := ops.pagesToCreate ++ [issue] }

/-- The function `getNotionOperations(issues, repository)`, with the module
array `gitHubIssuesIdToNotionPageId` as first argument. -/
def getNotionOperations (gitHubIssuesIdToNotionPageId : List JSObject)
    (issues : List Issue) (repository : String) : Operations :=
  let notionIssues := gitHubIssuesIdToNotionPageId.filter
    (fun o => JSVal.strictEq (o.get "repo") (JSVal.str repository))
  issues.foldl (classifyIssue notionIssues) { pagesToCreate := [], pagesToUpdate := [] }

/-! ## Field mapper -/

/-- The function `getIssueStatus`. -/
def getIssueStatus (issue : Issue) : String :=
  if issue.state = "closed" then "Done"
  else if issue.assignees.length ≠ 0 then "In progress"
  else "Not started"

/-- JavaScript `string.split(",")` on the characters of the string. -/
def splitComma : List Char → List (List Char)
  | [] => [[]]
  | c :: rest =>
    if c = ',' then [] :: splitComma rest
    else
      match splitComma rest with
      | [] => [[c]]
      | piece :: pieces => (c :: piece) :: pieces

/-- The expression `process.env.X?.split(",")` on a defined variable. -/
def split (s : String) : List String :=
  (splitComma s.data).map String.mk

/-- JavaScript `array.indexOf(x)` on strings: the first index, else `-1`. -/
def indexOf : List String → String → Int
  | [], _ => -1
  | y :: rest, x =>
    if y = x then 0
    else
      let i := indexOf rest x
      if i = -1 then -1 else i + 1

/-- JavaScript `array[index]` for an integer index: `undefined` (`none`) when
the index is out of range. -/
def elementAt (xs : List String) (index : Int) : Option String :=
  if index < 0 then none else xs.get? index.toNat

/-- The callback of `issue.assignees.forEach` in `getAssignees`, with the
array `assignees` built so far. -/
def pushAssignee (github_usernames : Option (List String)) (notion_usernames : List String)
    (users : List User) (assignees : List Person) (assigne : Assignee) : List Person :=
  match github_usernames.map (fun g => indexOf g assigne.login) with
  | some index =>
    if index ≠ -1 then
      match users.find? (fun element => decide (some element.name = elementAt notion_usernames index)) with
      | some usr => assignees ++ [{ id := usr.id }]
      | none => assignees
    else assignees
  | none => assignees

/-- The function `getAssignees(issue, users)`. -/
def getAssignees (env : Env) (issue : Issue) (users : List User) : List Person :=
  let github_usernames := env.GITHUB_USERNAMES.map split
  match env.NOTION_USERNAMES.map split with
  | none => []
  | some notion_usernames =>
    issue.assignees.foldl (pushAssignee github_usernames notion_usernames users) []

/-- The function `getPropertiesFromIssue(issue, users, project, repo)`. -/
def getPropertiesFromIssue (env : Env) (issue : Issue) (users : List User)
    (project : String) (repo : String) : Properties :=
  { Task := [{ content := repo ++ "#" ++ numberToString issue.number ++ ": " ++ issue.title }]
    Status := getIssueStatus issue
    Assign := getAssignees env issue users
    Projects := [{ id := project }] }

/-! ## Cursor pagination -/

/-- A response of a paginated Notion list endpoint: `{ results, next_cursor }`;
`none` is a `null` (or missing) cursor. -/
structure QueryResponse (α : Type) where
  results : List α
  next_cursor : Option String
  deriving DecidableEq, Repr

/-- The arguments of `notion.databases.query`. -/
structure DatabaseQuery where
  database_id : Option String
  start_cursor : Option String
  deriving DecidableEq, Repr

/-- The arguments of `notion.users.list`. -/
structure UserListQuery where
  start_cursor : Option String
  deriving DecidableEq, Repr

/-- The test `!next_cursor`: true for `null`, `undefined` and the empty
string. -/
def noCursor (next_cursor : Option String) : Bool :=
  match next_cursor with
  | none => true
  | some c => decide (c = "")

/-- The `while (true)` loop of `getPages`, run against the successive answers
of the remote: the first argument lists what the remote answers to the
requests still to come, `cursor` and `pages` are the loop variables, and
`sent` records the requests made so far.  When the remote has no further
answer the call does not return (`none`). -/
def getPagesLoop {α : Type} (dbID : Option String) :
    List (QueryResponse α) → Option String → List α → List DatabaseQuery →
    Option (List α × List DatabaseQuery)
  | [], _, _, _ => none
  | response :: later, cursor, pages, sent =>
    let pages1 := pages ++ response.results
    let sent1 := sent ++ [{ database_id := dbID, start_cursor := cursor }]
    if noCursor response.next_cursor then some (pages1, sent1)
    else getPagesLoop dbID later response.next_cursor pages1 sent1

/-- The function `getPages(dbID)`: the pages returned, and the requests that
were made, in order. -/
def getPages {α : Type} (dbID : Option String) (answers : List (QueryResponse α)) :
    Option (List α × List DatabaseQuery) :=
  getPagesLoop dbID answers none [] []

/-- The `while (true)` loop of `getUserList`, in the same way. -/
def getUserListLoop {α : Type} :
    List (QueryResponse α) → Option String → List α → List UserListQuery →
    Option (List α × List UserListQuery)
  | [], _, _, _ => none
  | response :: later, cursor, users, sent =>
    let users1 := users ++ response.results
    let sent1 := sent ++ [{ start_cursor := cursor }]
    if noCursor response.next_cursor then some (users1, sent1)
    else getUserListLoop later response.next_cursor users1 sent1

/-- The function `getUserList()`. -/
def getUserList {α : Type} (answers : List (QueryResponse α)) :
    Option (List α × List UserListQuery) :=
  getUserListLoop answers none [] []

/-! ## Batch writer -/

/-- lodash `baseSlice(array, start, end)` for `0 ≤ start ≤ end`: the elements
at the indices from `start` up to, not including, `min end length`. -/
def baseSlice {α : Type} (array : List α) (start stop : Nat) : List α :=
  (array.drop start).take (stop - start)

/-- The loop `while (index < length) result[resIndex++] = baseSlice(array,
index, (index += size))` of lodash `_.chunk`, bounded by a number of rounds. -/
def chunkLoop {α : Type} (array : List α) (size : Nat) : Nat → Nat → List (List α)
  | 0, _ => []
  | rounds + 1, index =>
    if index < array.length then
      baseSlice array index (index + size) :: chunkLoop array size rounds (index + size)
    else []

/-- lodash `_.chunk(array, size)` for a natural number `size`: empty for an
empty array or `size < 1`, else the loop above; with `size ≥ 1` the loop body
runs at most `length` times. -/
def chunk {α : Type} (array : List α) (size : Nat) : List (List α) :=
  if array.length = 0 ∨ size < 1 then [] else chunkLoop array size array.length 0

/-- A write request sent to Notion. -/
inductive WriteCall where
  | create (database_id : Option String) (properties : Properties)
  | update (page_id : JSVal) (properties : Properties)
  deriving DecidableEq, Repr

/-- What the run has done to the destination: the write calls issued so far,
in order, and those of them that were applied. -/
structure Notion where
  issued : List WriteCall
  applied : List WriteCall
  deriving DecidableEq, Repr

/-- One write call of a batch is issued: it joins the log, and it is applied
unless the remote fails it.  `fails k` tells whether the remote fails the
write with sequence number `k` (the number of writes issued before it).  The
flag records whether a call of the batch has failed. -/
def issueCall (fails : Nat → Bool) (st : Notion × Bool) (call : WriteCall) : Notion × Bool :=
  let k := st.1.issued.length
  ({ issued := st.1.issued ++ [call]
     applied := if fails k then st.1.applied else st.1.applied ++ [call] },
   st.2 || fails k)

/-- The expression `Promise.all(batch.map(...))`: every call of the batch is
issued, and the promise rejects (flag `true`) when one of them fails. -/
def promiseAll (fails : Nat → Bool) (st : Notion) (calls : List WriteCall) : Notion × Bool :=
  calls.foldl (issueCall fails) (st, false)

/-- The loop `for (const batch of chunks) await Promise.all(batch.map(...))`:
a rejected batch throws out of the loop. -/
def writeBatches {α : Type} (fails : Nat → Bool) (call : α → WriteCall) :
    List (List α) → Notion → Except JSError Unit × Notion
  | [], st => (Except.ok (), st)
  | batch :: later, st =>
    let r := promiseAll fails st (batch.map call)
    if r.2 then (Except.error JSError.rejected, r.1)
    else writeBatches fails call later r.1

/-- The function `createPages(pagesToCreate, users, project, repo)`. -/
def createPages (env : Env) (fails : Nat → Bool) (pagesToCreate : List Issue)
    (users : List User) (project : String) (repo : String) (st : Notion) :
    Except JSError Unit × Notion :=
  let pagesToCreateChunks := chunk pagesToCreate OPERATION_BATCH_SIZE
  writeBatches fails
    (fun issue => WriteCall.create env.NOTION_DATABASE_TASKS_ID
      (getPropertiesFromIssue env issue users project repo))
    pagesToCreateChunks st

/-- The function `updatePages(pagesToUpdate, users, project, repo)`. -/
def updatePages (env : Env) (fails : Nat → Bool) (pagesToUpdate : List PageToUpdate)
    (users : List User) (project : String) (repo : String) (st : Notion) :
    Except JSError Unit × Notion :=
  let pagesToUpdateChunks := chunk pagesToUpdate OPERATION_BATCH_SIZE
  writeBatches fails
    (fun p => WriteCall.update p.pageId
      (getPropertiesFromIssue env p.issue users project repo))
    pagesToUpdateChunks st

/-! ## Auxiliary definitions used in the statements -/

/-- The page id `getNotionOperations` reads for an issue: the `pageID`
property of the first record of the repository subset with the issue's
number, `undefined` when there is no such record. -/
def pageIdFor (notionIssues : List JSObject) (issue : Issue) : JSVal :=
  match notionIssues.find?
      (fun o => JSVal.strictEq (o.get "issueNumber") (JSVal.num issue.number)) with
  | some obj => obj.get "pageID"
  | none => JSVal.undefined

/-- The constant `notionIssues` of `getNotionOperations`: the records of the
index whose `repo` is the repository. -/
def notionIssuesOf (index : List JSObject) (repository : String) : List JSObject :=
  index.filter (fun o => JSVal.strictEq (o.get "repo") (JSVal.str repository))

/-- A page of the task database that stores a payload of
`getPropertiesFromIssue`: its `Task` title and `Projects` relation are those
of the payload. -/
def storedPage (id : String) (properties : Properties) : Page :=
  { id := id, Task := properties.Task, Projects := properties.Projects }

/-- The resolution of one assignee that `getAssignees` performs with both
username lists at hand: the login is looked up in the source list, the
destination name at that index is looked up among the users. -/
def resolveAssignee (github_usernames notion_usernames : List String) (users : List User)
    (assigne : Assignee) : Option Person :=
  if indexOf github_usernames assigne.login ≠ -1 then
    (users.find? (fun element =>
      decide (some element.name =
        elementAt notion_usernames (indexOf github_usernames assigne.login)))).map
      (fun usr => { id := usr.id })
  else none

/-- The resolution of the claim, in its own words: the login occurs in the
source-username list; at its first index `i` the destination-username list has
a name; some user of the snapshot has exactly that name; the person carries
the id of the first such user. -/
def ResolvesTo (source destination : List String) (users : List User) (login : String)
    (p : Person) : Prop :=
  ∃ (i : Nat) (name : String) (u : User),
    source.get? i = some login ∧ (∀ j, j < i → source.get? j ≠ some login) ∧
    destination.get? i = some name ∧
    (∃ before after, users = before ++ u :: after ∧ u.name = name ∧
      ∀ v ∈ before, v.name ≠ name) ∧
    p = { id := u.id }

/-- The partition of the claim on batches: the batches are consecutive slices
of the operations whose concatenation in batch order is the operation list;
every batch is non-empty and has at most `OPERATION_BATCH_SIZE` elements;
every batch but the last has exactly that many; and their number is
`length / OPERATION_BATCH_SIZE` rounded up. -/
def IsBatchPartition {α : Type} (ops : List α) (batches : List (List α)) : Prop :=
  batches.flatten = ops ∧
  (∀ k b, batches.get? k = some b →
    b = (ops.drop (k * OPERATION_BATCH_SIZE)).take OPERATION_BATCH_SIZE) ∧
  (∀ b ∈ batches, 1 ≤ b.length ∧ b.length ≤ OPERATION_BATCH_SIZE) ∧
  (∀ k b, k + 1 < batches.length → batches.get? k = some b →
    b.length = OPERATION_BATCH_SIZE) ∧
  batches.length = (ops.length + (OPERATION_BATCH_SIZE - 1)) / OPERATION_BATCH_SIZE

/-- The failure semantics of the claim on a batch run, for a run function
over the write calls of the given batches.  `fails` tells which sequence
numbers of issued writes the remote fails, and `st` is the state of the
destination before the run.

* If batch `b`, with the batches `before` in front of it and the batches
  `after` behind it, has a failing write and no write of `before` fails, the run
  ends with an error; the writes issued are exactly those of `before` and `b`,
  in order (none of `after`); the writes applied earlier and those of `before`
  stay applied, followed by writes of `b`.
* If no write fails, the run succeeds and every write of every batch is
  issued once, in order, and applied. -/
def BatchFailureSemantics (run : (Nat → Bool) → Notion → Except JSError Unit × Notion)
    (batches : List (List WriteCall)) : Prop :=
  (∀ (fails : Nat → Bool) (st : Notion) (before : List (List WriteCall))
      (b : List WriteCall) (after : List (List WriteCall)),
    batches = before ++ b :: after →
    (∀ i, i < before.flatten.length → fails (st.issued.length + i) = false) →
    (∃ i, i < b.length ∧ fails (st.issued.length + before.flatten.length + i) = true) →
    ∃ st1 : Notion,
      run fails st = (Except.error JSError.rejected, st1) ∧
      st1.issued = st.issued ++ (before ++ [b]).flatten ∧
      ∃ extra, st1.applied = st.applied ++ before.flatten ++ extra ∧ List.Sublist extra b) ∧
  (∀ (fails : Nat → Bool) (st : Notion),
    (∀ i, i < batches.flatten.length → fails (st.issued.length + i) = false) →
    run fails st =
      (Except.ok (),
        { issued := st.issued ++ batches.flatten, applied := st.applied ++ batches.flatten }))

/-- A sample issue with the given number, for concrete runs. -/
def sampleIssue (n : Nat) : Issue :=
  { number := n, title := "t", state := "open", comment_count := 0, url := "u",
    assignees := [] }

/-- A sample environment with no username lists. -/
def sampleEnv : Env :=
  { NOTION_DATABASE_TASKS_ID := some "db", GITHUB_USERNAMES := none,
    NOTION_USERNAMES := none }

/-- The write call `createPages` issues for an issue. -/
def createCall (env : Env) (users : List User) (project repo : String) (issue : Issue) :
    WriteCall :=
  WriteCall.create env.NOTION_DATABASE_TASKS_ID
    (getPropertiesFromIssue env issue users project repo)

/-- The write call `updatePages` issues for an element of `pagesToUpdate`. -/
def updateCall (env : Env) (users : List User) (project repo : String) (p : PageToUpdate) :
    WriteCall :=
  WriteCall.update p.pageId (getPropertiesFromIssue env p.issue users project repo)

/-- Whether the text has, before its first line terminator, a `#` followed by
one or more word characters and a `:` (a match of `#\w{1,}:`). -/
def mentionsIssue : List Char → Bool
  | [] => false
  | c :: rest =>
    (matchHash (c :: rest)).isSome || (!isLineTerminator c && mentionsIssue rest)

/-- JavaScript `Number.MAX_SAFE_INTEGER`: up to it the integers are doubles,
`numberToString` prints what the template literal prints and `parseInt` returns
the exact value. -/
def MAX_SAFE_INTEGER : Nat := 2 ^ 53 - 1

/-! ## Diff engine: classification of the issues -/

theorem classifyIssue_eq (notionIssues : List JSObject) (ops : Operations) (issue : Issue) :
    classifyIssue notionIssues ops issue =
      if (pageIdFor notionIssues issue).truthy then
        { ops with pagesToUpdate :=
            ops.pagesToUpdate ++ [{ issue := issue, pageId := pageIdFor notionIssues issue }] }
      else { ops with pagesToCreate := ops.pagesToCreate ++ [issue] } := by
  unfold classifyIssue pageIdFor
  cases h : notionIssues.find?
      (fun o => JSVal.strictEq (o.get "issueNumber") (JSVal.num issue.number)) with
  | none => simp [JSVal.truthy]
  | some obj => simp

theorem foldl_classifyIssue (notionIssues : List JSObject) (issues : List Issue) :
    ∀ ops : Operations,
      issues.foldl (classifyIssue notionIssues) ops =
        { pagesToCreate := ops.pagesToCreate ++
            issues.filter (fun i => !(pageIdFor notionIssues i).truthy)
          pagesToUpdate := ops.pagesToUpdate ++
            (issues.filter (fun i => (pageIdFor notionIssues i).truthy)).map
              (fun i => { issue := i, pageId := pageIdFor notionIssues i }) } := by
  induction issues with
  | nil => intro ops; simp
  | cons i rest ih =>
    intro ops
    rw [List.foldl_cons, ih, classifyIssue_eq]
    by_cases h : (pageIdFor notionIssues i).truthy = true
    · simp [h]
    · simp [h]

theorem getNotionOperations_eq (index : List JSObject) (issues : List Issue) (repo : String) :
    getNotionOperations index issues repo =
      { pagesToCreate :=
          issues.filter (fun i => !(pageIdFor (notionIssuesOf index repo) i).truthy)
        pagesToUpdate :=
          (issues.filter (fun i => (pageIdFor (notionIssuesOf index repo) i).truthy)).map
            (fun i => { issue := i, pageId := pageIdFor (notionIssuesOf index repo) i }) } := by
  unfold getNotionOperations notionIssuesOf
  simp only [foldl_classifyIssue, List.nil_append]

/-! ## Records of the destination reader have no `pageID` property -/

theorem notionIssue_get_pageID (pageId : String) (n : JSVal) (projectID repo : String) :
    (notionIssue pageId n projectID repo).get "pageID" = JSVal.undefined := by
  simp [notionIssue, JSObject.get, List.find?]

theorem getIssuesLoop_untitled (page : Page) (rest : List Page) (acc : List JSObject)
    (hT : page.Task = []) :
    getIssuesLoop (page :: rest) acc = Except.error JSError.typeError := by
  simp [getIssuesLoop, hT]

theorem getIssuesLoop_skip (page : Page) (rest : List Page) (acc : List JSObject)
    (first : RichText) (more : List RichText) (hT : page.Task = first :: more)
    (hR : regexpExec first.content.data = none) :
    getIssuesLoop (page :: rest) acc = getIssuesLoop rest acc := by
  simp [getIssuesLoop, hT, hR]

theorem getIssuesLoop_unrelated (page : Page) (rest : List Page) (acc : List JSObject)
    (first : RichText) (more : List RichText) (hT : page.Task = first :: more)
    (m : List Char × List Char) (hR : regexpExec first.content.data = some m)
    (hP : page.Projects = []) :
    getIssuesLoop (page :: rest) acc = Except.error JSError.typeError := by
  obtain ⟨m1, m2⟩ := m
  simp [getIssuesLoop, hT, hR, hP]

theorem getIssuesLoop_push (page : Page) (rest : List Page) (acc : List JSObject)
    (first : RichText) (more : List RichText) (hT : page.Task = first :: more)
    (m1 m2 : List Char) (hR : regexpExec first.content.data = some (m1, m2))
    (rel : Relation) (rels : List Relation) (hP : page.Projects = rel :: rels) :
    getIssuesLoop (page :: rest) acc =
      getIssuesLoop rest
        (acc ++ [notionIssue page.id (parseInt m2) rel.id (String.mk m1)]) := by
  simp [getIssuesLoop, hT, hR, hP]

theorem getIssuesLoop_pageID (pages : List Page) :
    ∀ (acc index : List JSObject),
      (∀ o ∈ acc, JSObject.get o "pageID" = JSVal.undefined) →
      getIssuesLoop pages acc = Except.ok index →
      ∀ o ∈ index, JSObject.get o "pageID" = JSVal.undefined := by
  induction pages with
  | nil =>
    intro acc index hacc h
    simp only [getIssuesLoop, Except.ok.injEq] at h
    subst h
    exact hacc
  | cons page rest ih =>
    intro acc index hacc h
    cases hT : page.Task with
    | nil => rw [getIssuesLoop_untitled page rest acc hT] at h; cases h
    | cons first more =>
      cases hR : regexpExec first.content.data with
      | none =>
        rw [getIssuesLoop_skip page rest acc first more hT hR] at h
        exact ih acc index hacc h
      | some m =>
        obtain ⟨m1, m2⟩ := m
        cases hP : page.Projects with
        | nil => rw [getIssuesLoop_unrelated page rest acc first more hT _ hR hP] at h; cases h
        | cons rel rels =>
          rw [getIssuesLoop_push page rest acc first more hT m1 m2 hR rel rels hP] at h
          refine ih _ index ?_ h
          intro o ho
          rcases List.mem_append.mp ho with ho | ho
          · exact hacc o ho
          · rw [List.mem_singleton.mp ho]
            exact notionIssue_get_pageID _ _ _ _

theorem getIssuesFromNotionDatabase_pageID (pages : List Page) (index : List JSObject)
    (h : getIssuesFromNotionDatabase pages = Except.ok index) :
    ∀ o ∈ index, JSObject.get o "pageID" = JSVal.undefined :=
  getIssuesLoop_pageID pages [] index (by simp) h

theorem pageIdFor_undefined (notionIssues : List JSObject)
    (h : ∀ o ∈ notionIssues, JSObject.get o "pageID" = JSVal.undefined) (issue : Issue) :
    pageIdFor notionIssues issue = JSVal.undefined := by
  unfold pageIdFor
  cases hf : notionIssues.find?
      (fun o => JSVal.strictEq (o.get "issueNumber") (JSVal.num issue.number)) with
  | none => rfl
  | some obj => exact h obj (List.mem_of_find?_eq_some hf)

theorem getNotionOperations_of_reader (pages : List Page) (index : List JSObject)
    (h : getIssuesFromNotionDatabase pages = Except.ok index)
    (issues : List Issue) (repo : String) :
    getNotionOperations index issues repo = { pagesToCreate := issues, pagesToUpdate := [] } := by
  have hu : ∀ i : Issue, pageIdFor (notionIssuesOf index repo) i = JSVal.undefined := by
    intro i
    apply pageIdFor_undefined
    intro o ho
    exact getIssuesFromNotionDatabase_pageID pages index h o (List.mem_filter.mp ho).1
  rw [getNotionOperations_eq]
  simp [hu, JSVal.truthy]

/-! ## Field mapper: assignees -/

theorem indexOf_spec (xs : List String) (x : String) :
    (indexOf xs x = -1 ∧ ∀ j, xs.get? j ≠ some x) ∨
    (∃ i : Nat, indexOf xs x = (i : Int) ∧ xs.get? i = some x ∧
      ∀ j, j < i → xs.get? j ≠ some x) := by
  induction xs with
  | nil => left; simp [indexOf]
  | cons y rest ih =>
    by_cases hy : y = x
    · right
      refine ⟨0, ?_, ?_, ?_⟩
      · simp [indexOf, hy]
      · simp [hy]
      · intro j hj; omega
    · rcases ih with ⟨h1, h2⟩ | ⟨i, h1, h2, h3⟩
      · left
        refine ⟨by simp [indexOf, hy, h1], ?_⟩
        intro j
        cases j with
        | zero => simpa using hy
        | succ j => simpa using h2 j
      · right
        refine ⟨i + 1, ?_, ?_, ?_⟩
        · have : (i : Int) ≠ -1 := by omega
          simp [indexOf, hy, h1, this]
        · simpa using h2
        · intro j hj
          cases j with
          | zero => simpa using hy
          | succ j => simpa using h3 j (by omega)

theorem elementAt_natCast (xs : List String) (i : Nat) :
    elementAt xs (i : Int) = xs.get? i := by
  have : ¬ ((i : Int) < 0) := by omega
  simp [elementAt, this]

theorem resolveAssignee_iff (source destination : List String) (users : List User)
    (a : Assignee) (p : Person) :
    resolveAssignee source destination users a = some p ↔
      ResolvesTo source destination users a.login p := by
  unfold resolveAssignee ResolvesTo
  rcases indexOf_spec source a.login with ⟨h1, h2⟩ | ⟨i, h1, h2, h3⟩
  · simp only [h1, ne_eq, not_true_eq_false, if_false]
    constructor
    · intro h; cases h
    · rintro ⟨i, _, _, hi, _⟩
      exact absurd hi (h2 i)
  · have hne : (i : Int) ≠ -1 := by omega
    simp only [h1, ne_eq, hne, not_false_eq_true, if_true, elementAt_natCast,
      Option.map_eq_some', List.find?_eq_some]
    constructor
    · rintro ⟨u, ⟨hu, before, after, hsplit, hbefore⟩, hp⟩
      have hname : destination.get? i = some u.name := by
        simpa using (of_decide_eq_true hu).symm
      refine ⟨i, u.name, u, h2, h3, hname, ⟨before, after, hsplit, rfl, ?_⟩, hp.symm⟩
      intro v hv hv2
      have := hbefore v hv
      rw [hname, hv2] at this
      simp at this
    · rintro ⟨k, name, u, hk, hkmin, hname, ⟨before, after, hsplit, hu, hbefore⟩, hp⟩
      have hki : k = i := by
        rcases Nat.lt_trichotomy k i with hlt | heq | hgt
        · exact absurd hk (h3 k hlt)
        · exact heq
        · exact absurd h2 (hkmin i hgt)
      subst hki
      refine ⟨u, ⟨?_, before, after, hsplit, ?_⟩, hp.symm⟩
      · rw [hname, hu]
        simp
      · intro v hv
        have := hbefore v hv
        rw [hname]
        simpa using this

theorem pushAssignee_eq (source destination : List String) (users : List User)
    (assignees : List Person) (a : Assignee) :
    pushAssignee (some source) destination users assignees a =
      assignees ++ (resolveAssignee source destination users a).toList := by
  unfold pushAssignee resolveAssignee
  by_cases h : indexOf source a.login = -1
  · simp [h]
  · simp only [Option.map_some', ne_eq, h, not_false_eq_true, if_true]
    cases users.find? (fun element =>
      decide (some element.name = elementAt destination (indexOf source a.login))) with
    | none => simp
    | some u => simp

theorem foldl_pushAssignee (source destination : List String) (users : List User)
    (l : List Assignee) :
    ∀ assignees : List Person,
      l.foldl (pushAssignee (some source) destination users) assignees =
        assignees ++ l.filterMap (resolveAssignee source destination users) := by
  induction l with
  | nil => intro assignees; simp
  | cons a rest ih =>
    intro assignees
    rw [List.foldl_cons, ih, pushAssignee_eq, List.filterMap_cons]
    cases resolveAssignee source destination users a with
    | none => simp
    | some p => simp

/-! ## Cursor pagination -/

theorem getPagesLoop_chain {α : Type} (dbID : Option String)
    (chain : List (QueryResponse α)) (last : QueryResponse α)
    (later : List (QueryResponse α))
    (hlast : noCursor last.next_cursor = true) :
    (∀ r ∈ chain, noCursor r.next_cursor = false) →
    ∀ (cursor : Option String) (pages : List α) (sent : List DatabaseQuery),
      getPagesLoop dbID (chain ++ last :: later) cursor pages sent =
        some (pages ++ ((chain ++ [last]).map (fun r => r.results)).flatten,
              sent ++ (cursor :: chain.map (fun r => r.next_cursor)).map
                (fun c => { database_id := dbID, start_cursor := c })) := by
  induction chain with
  | nil =>
    intro _ cursor pages sent
    simp [getPagesLoop, hlast]
  | cons r rest ih =>
    intro hchain cursor pages sent
    have hr : noCursor r.next_cursor = false := hchain r (List.mem_cons_self _ _)
    have hrest : ∀ x ∈ rest, noCursor x.next_cursor = false :=
      fun x hx => hchain x (List.mem_cons_of_mem _ hx)
    have step := ih hrest r.next_cursor (pages ++ r.results)
      (sent ++ [{ database_id := dbID, start_cursor := cursor }])
    rw [List.cons_append, getPagesLoop]
    simp only [hr, Bool.false_eq_true, if_false, step]
    simp

theorem getUserListLoop_chain {α : Type}
    (chain : List (QueryResponse α)) (last : QueryResponse α)
    (later : List (QueryResponse α))
    (hlast : noCursor last.next_cursor = true) :
    (∀ r ∈ chain, noCursor r.next_cursor = false) →
    ∀ (cursor : Option String) (users : List α) (sent : List UserListQuery),
      getUserListLoop (chain ++ last :: later) cursor users sent =
        some (users ++ ((chain ++ [last]).map (fun r => r.results)).flatten,
              sent ++ (cursor :: chain.map (fun r => r.next_cursor)).map
                (fun c => { start_cursor := c })) := by
  induction chain with
  | nil =>
    intro _ cursor users sent
    simp [getUserListLoop, hlast]
  | cons r rest ih =>
    intro hchain cursor users sent
    have hr : noCursor r.next_cursor = false := hchain r (List.mem_cons_self _ _)
    have hrest : ∀ x ∈ rest, noCursor x.next_cursor = false :=
      fun x hx => hchain x (List.mem_cons_of_mem _ hx)
    have step := ih hrest r.next_cursor (users ++ r.results)
      (sent ++ [{ start_cursor := cursor }])
    rw [List.cons_append, getUserListLoop]
    simp only [hr, Bool.false_eq_true, if_false, step]
    simp

/-! ## lodash `_.chunk` -/

theorem baseSlice_eq {α : Type} (array : List α) (index size : Nat) :
    baseSlice array index (index + size) = (array.drop index).take size := by
  simp [baseSlice]

theorem chunkLoop_flatten {α : Type} (array : List α) (size : Nat) (hsize : 0 < size) :
    ∀ rounds index, array.length - index ≤ rounds →
      (chunkLoop array size rounds index).flatten = array.drop index := by
  intro rounds
  induction rounds with
  | zero =>
    intro index h
    have : array.length ≤ index := by omega
    simp [chunkLoop, List.drop_eq_nil_of_le this]
  | succ rounds ih =>
    intro index h
    unfold chunkLoop
    by_cases hlt : index < array.length
    · simp only [hlt, if_true, List.flatten_cons]
      rw [ih (index + size) (by omega), baseSlice_eq, ← List.drop_drop]
      exact List.take_append_drop size (array.drop index)
    · have : array.length ≤ index := by omega
      simp [hlt, List.drop_eq_nil_of_le this]

theorem chunkLoop_length {α : Type} (array : List α) (size : Nat) (hsize : 0 < size) :
    ∀ rounds index, array.length - index ≤ rounds →
      (chunkLoop array size rounds index).length =
        (array.length - index + (size - 1)) / size := by
  intro rounds
  induction rounds with
  | zero =>
    intro index h
    have h0 : array.length - index = 0 := by omega
    rw [h0, Nat.zero_add, Nat.div_eq_of_lt (by omega)]
    rfl
  | succ rounds ih =>
    intro index h
    unfold chunkLoop
    by_cases hlt : index < array.length
    · simp only [hlt, if_true, List.length_cons]
      rw [ih (index + size) (by omega)]
      by_cases hfull : index + size ≤ array.length
      · have e : array.length - index + (size - 1)
            = (array.length - (index + size) + (size - 1)) + size := by omega
        rw [e, Nat.add_div_right _ hsize]
      · have e0 : array.length - (index + size) = 0 := by omega
        rw [e0, Nat.zero_add, Nat.div_eq_of_lt (by omega)]
        have e : array.length - index + (size - 1)
            = (array.length - index - 1) + size := by omega
        rw [e, Nat.add_div_right _ hsize, Nat.div_eq_of_lt (by omega)]
    · have h0 : array.length - index = 0 := by omega
      simp only [hlt, if_false, List.length_nil]
      rw [h0, Nat.zero_add, Nat.div_eq_of_lt (by omega)]

theorem chunkLoop_get? {α : Type} (array : List α) (size : Nat) (hsize : 0 < size) :
    ∀ rounds index, array.length - index ≤ rounds →
      ∀ k, (chunkLoop array size rounds index).get? k =
        if index + k * size < array.length then
          some ((array.drop (index + k * size)).take size)
        else none := by
  intro rounds
  induction rounds with
  | zero =>
    intro index h k
    have : ¬ (index + k * size < array.length) := by
      have := Nat.zero_le (k * size)
      omega
    simp [chunkLoop, this]
  | succ rounds ih =>
    intro index h k
    unfold chunkLoop
    by_cases hlt : index < array.length
    · simp only [hlt, if_true]
      cases k with
      | zero => simp [hlt, baseSlice_eq]
      | succ k =>
        rw [List.get?_cons_succ, ih (index + size) (by omega) k]
        have e : index + size + k * size = index + (k + 1) * size := by
          rw [Nat.add_mul, Nat.one_mul]; omega
        rw [e]
    · have : ¬ (index + k * size < array.length) := by
        have := Nat.zero_le (k * size)
        omega
      simp [hlt, this]

theorem chunk_eq_chunkLoop {α : Type} (array : List α) (size : Nat) (hsize : 0 < size) :
    chunk array size = chunkLoop array size array.length 0 := by
  unfold chunk
  by_cases h : array.length = 0
  · have harr : array = [] := List.length_eq_zero.mp h
    subst harr
    simp [chunkLoop]
  · have : ¬ (array.length = 0 ∨ size < 1) := by omega
    rw [if_neg this]

theorem chunk_flatten {α : Type} (array : List α) (size : Nat) (hsize : 0 < size) :
    (chunk array size).flatten = array := by
  rw [chunk_eq_chunkLoop array size hsize,
    chunkLoop_flatten array size hsize array.length 0 (by omega)]
  rfl

theorem chunk_length {α : Type} (array : List α) (size : Nat) (hsize : 0 < size) :
    (chunk array size).length = (array.length + (size - 1)) / size := by
  rw [chunk_eq_chunkLoop array size hsize,
    chunkLoop_length array size hsize array.length 0 (by omega)]
  rfl

theorem chunk_get? {α : Type} (array : List α) (size : Nat) (hsize : 0 < size) (k : Nat) :
    (chunk array size).get? k =
      if k * size < array.length then some ((array.drop (k * size)).take size) else none := by
  rw [chunk_eq_chunkLoop array size hsize,
    chunkLoop_get? array size hsize array.length 0 (by omega) k]
  simp

theorem chunk_get?_some {α : Type} (array : List α) (size : Nat) (hsize : 0 < size)
    (k : Nat) (b : List α) (h : (chunk array size).get? k = some b) :
    k * size < array.length ∧ b = (array.drop (k * size)).take size := by
  rw [chunk_get? array size hsize k] at h
  by_cases hk : k * size < array.length
  · simp only [hk, if_true, Option.some.injEq] at h
    exact ⟨hk, h.symm⟩
  · simp [hk] at h

theorem chunk_isBatchPartition {α : Type} (ops : List α) :
    IsBatchPartition ops (chunk ops OPERATION_BATCH_SIZE) := by
  have hsize : 0 < OPERATION_BATCH_SIZE := by decide
  refine ⟨chunk_flatten ops _ hsize, ?_, ?_, ?_, chunk_length ops _ hsize⟩
  · intro k b h
    exact (chunk_get?_some ops _ hsize k b h).2
  · intro b hb
    obtain ⟨k, hk⟩ := List.get?_of_mem hb
    obtain ⟨hlt, hbeq⟩ := chunk_get?_some ops _ hsize k b hk
    subst hbeq
    rw [List.length_take, List.length_drop]
    constructor
    · omega
    · exact Nat.min_le_left _ _
  · intro k b hk hb
    obtain ⟨_, hbeq⟩ := chunk_get?_some ops _ hsize k b hb
    subst hbeq
    have hnext : (chunk ops OPERATION_BATCH_SIZE).get? (k + 1) ≠ none := by
      intro hnone
      rw [List.get?_eq_none] at hnone
      omega
    rw [chunk_get? ops _ hsize (k + 1)] at hnext
    have hlt : (k + 1) * OPERATION_BATCH_SIZE < ops.length := by
      by_contra hcon
      simp [hcon] at hnext
    rw [List.length_take, List.length_drop]
    rw [Nat.add_mul, Nat.one_mul] at hlt
    omega

/-! ## Batch writer: the sequential run -/

theorem foldl_issueCall (fails : Nat → Bool) (calls : List WriteCall) :
    ∀ (st : Notion) (flag : Bool),
      ((calls.foldl (issueCall fails) (st, flag)).1.issued = st.issued ++ calls) ∧
      ((calls.foldl (issueCall fails) (st, flag)).2 = true ↔
        flag = true ∨ ∃ i, i < calls.length ∧ fails (st.issued.length + i) = true) ∧
      (∃ extra, (calls.foldl (issueCall fails) (st, flag)).1.applied = st.applied ++ extra ∧
        List.Sublist extra calls ∧
        ((∀ i, i < calls.length → fails (st.issued.length + i) = false) → extra = calls)) := by
  induction calls with
  | nil =>
    intro st flag
    refine ⟨by simp, by simp, [], by simp, List.Sublist.refl _, fun _ => rfl⟩
  | cons c rest ih =>
    intro st flag
    rw [List.foldl_cons]
    obtain ⟨h1, h2, extra, h3, h4, h5⟩ := ih (issueCall fails (st, flag) c).1
      (issueCall fails (st, flag) c).2
    have hlen : (issueCall fails (st, flag) c).1.issued.length = st.issued.length + 1 := by
      simp [issueCall]
    refine ⟨?_, ?_, ?_⟩
    · rw [h1]; simp [issueCall]
    · rw [h2, hlen]
      constructor
      · rintro (h | ⟨i, hi, hf⟩)
        · simp only [issueCall, Bool.or_eq_true] at h
          rcases h with h | h
          · exact Or.inl h
          · exact Or.inr ⟨0, by simp, by simpa using h⟩
        · refine Or.inr ⟨i + 1, by simp; omega, ?_⟩
          rw [← hf]; congr 1; omega
      · rintro (h | ⟨i, hi, hf⟩)
        · left; simp [issueCall, h]
        · cases i with
          | zero => left; simp only [issueCall, Bool.or_eq_true]; right; simpa using hf
          | succ i =>
            right
            refine ⟨i, by simp at hi; omega, ?_⟩
            rw [← hf]; congr 1; omega
    · by_cases hf : fails st.issued.length = true
      · refine ⟨extra, ?_, List.Sublist.cons _ h4, ?_⟩
        · rw [h3]; simp [issueCall, hf]
        · intro hall
          have := hall 0 (by simp)
          simp [hf] at this
      · refine ⟨c :: extra, ?_, List.Sublist.cons₂ _ h4, ?_⟩
        · rw [h3]; simp [issueCall, hf]
        · intro hall
          rw [h5 ?_]
          intro i hi
          rw [hlen]
          have := hall (i + 1) (by simp; omega)
          rw [← this]; congr 1; omega

theorem writeBatches_ok {α : Type} (fails : Nat → Bool) (call : α → WriteCall)
    (batches : List (List α)) :
    ∀ st : Notion,
      (∀ i, i < (batches.map (List.map call)).flatten.length →
        fails (st.issued.length + i) = false) →
      writeBatches fails call batches st =
        (Except.ok (),
          { issued := st.issued ++ (batches.map (List.map call)).flatten
            applied := st.applied ++ (batches.map (List.map call)).flatten }) := by
  induction batches with
  | nil => intro st _; simp [writeBatches]
  | cons b rest ih =>
    intro st hall
    obtain ⟨h1, h2, extra, h3, _, h5⟩ := foldl_issueCall fails (b.map call) st false
    have hlen : ((b :: rest).map (List.map call)).flatten.length
        = (b.map call).length + (rest.map (List.map call)).flatten.length := by
      simp
    have hb : ∀ i, i < (b.map call).length → fails (st.issued.length + i) = false :=
      fun i hi => hall i (by omega)
    have hflag : ((b.map call).foldl (issueCall fails) (st, false)).2 = false := by
      cases hc : ((b.map call).foldl (issueCall fails) (st, false)).2 with
      | false => rfl
      | true =>
        rcases h2.mp hc with h | ⟨i, hi, hf⟩
        · cases h
        · rw [hb i hi] at hf; cases hf
    have hextra := h5 hb
    subst hextra
    unfold writeBatches promiseAll
    simp only [hflag, Bool.false_eq_true, if_false]
    rw [ih]
    · simp [h1, h3, List.append_assoc]
    · intro i hi
      rw [h1, List.length_append, Nat.add_assoc]
      exact hall _ (by omega)

theorem writeBatches_rejected {α : Type} (fails : Nat → Bool) (call : α → WriteCall)
    (b : List α) (after : List (List α)) (before : List (List α)) :
    ∀ st : Notion,
      (∀ i, i < (before.map (List.map call)).flatten.length →
        fails (st.issued.length + i) = false) →
      (∃ i, i < (b.map call).length ∧
        fails (st.issued.length + (before.map (List.map call)).flatten.length + i) = true) →
      ∃ st1 : Notion,
        writeBatches fails call (before ++ b :: after) st
          = (Except.error JSError.rejected, st1) ∧
        st1.issued = st.issued ++ ((before ++ [b]).map (List.map call)).flatten ∧
        ∃ extra, st1.applied = st.applied ++ (before.map (List.map call)).flatten ++ extra ∧
          List.Sublist extra (b.map call) := by
  induction before with
  | nil =>
    intro st _ hfail
    obtain ⟨h1, h2, extra, h3, h4, _⟩ := foldl_issueCall fails (b.map call) st false
    have hflag : ((b.map call).foldl (issueCall fails) (st, false)).2 = true := by
      apply h2.mpr
      right
      simpa using hfail
    refine ⟨((b.map call).foldl (issueCall fails) (st, false)).1, ?_, ?_, extra, ?_, h4⟩
    · simp [writeBatches, promiseAll, hflag]
    · simp [h1]
    · simp [h3]
  | cons b0 rest ih =>
    intro st hall hfail
    obtain ⟨h1, h2, extra0, h3, _, h5⟩ := foldl_issueCall fails (b0.map call) st false
    have hb : ∀ i, i < (b0.map call).length → fails (st.issued.length + i) = false :=
      fun i hi => hall i (by simp at hi ⊢; omega)
    have hflag : ((b0.map call).foldl (issueCall fails) (st, false)).2 = false := by
      cases hc : ((b0.map call).foldl (issueCall fails) (st, false)).2 with
      | false => rfl
      | true =>
        rcases h2.mp hc with h | ⟨i, hi, hf⟩
        · cases h
        · rw [hb i hi] at hf; cases hf
    have hextra := h5 hb
    subst hextra
    obtain ⟨st1, e1, e2, extra, e3, e4⟩ :=
      ih ((b0.map call).foldl (issueCall fails) (st, false)).1
        (by
          intro i hi
          rw [h1, List.length_append, Nat.add_assoc]
          exact hall _ (by simp at hi ⊢; omega))
        (by
          obtain ⟨i, hi, hf⟩ := hfail
          refine ⟨i, hi, ?_⟩
          rw [← hf, h1, List.length_append]
          congr 1
          simp
          omega)
    refine ⟨st1, ?_, ?_, extra, ?_, e4⟩
    · rw [List.cons_append, writeBatches]
      simp only [promiseAll, hflag, Bool.false_eq_true, if_false]
      exact e1
    · rw [e2, h1]; simp [List.append_assoc]
    · rw [e3, h3]; simp [List.append_assoc]

theorem writeBatches_semantics {α : Type} (call : α → WriteCall) (batches : List (List α)) :
    BatchFailureSemantics (fun fails st => writeBatches fails call batches st)
      (batches.map (List.map call)) := by
  constructor
  · intro fails st before b after hsplit hbefore hfail
    obtain ⟨pre, rest, hb, hpre, hrest⟩ := List.map_eq_append_iff.mp hsplit
    obtain ⟨b0, post, hrest0, hb0, _⟩ := List.map_eq_cons_iff.mp hrest
    subst hpre hb0 hrest0 hb
    obtain ⟨st1, e1, e2, extra, e3, e4⟩ :=
      writeBatches_rejected fails call b0 post pre st hbefore hfail
    refine ⟨st1, e1, ?_, extra, e3, e4⟩
    rw [e2]
    simp
  · intro fails st hall
    exact writeBatches_ok fails call batches st hall

/-! ## Decimal digits: `numberToString` and `parseInt` -/

/-- The character is one of the decimal digits `0` to `9`. -/
theorem digitChar_facts (k : Nat) (hk : k < 10) :
    isWordChar (Nat.digitChar k) = true ∧
    isLineTerminator (Nat.digitChar k) = false ∧
    isStrWhiteSpaceChar (Nat.digitChar k) = false ∧
    Nat.digitChar k ≠ '#' ∧ Nat.digitChar k ≠ '-' ∧ Nat.digitChar k ≠ '+' ∧
    Nat.digitChar k ≠ 'x' ∧ Nat.digitChar k ≠ 'X' ∧
    digitValue 10 (Nat.digitChar k) = some k := by
  interval_cases k <;> decide

theorem parseDigits_append (xs : List Char)
    (hxs : ∀ c ∈ xs, ∃ k, k < 10 ∧ c = Nat.digitChar k) (ys : List Char) :
    ∀ acc, parseDigits 10 (xs ++ ys) acc = parseDigits 10 ys (parseDigits 10 xs acc) := by
  induction xs with
  | nil => intro acc; simp [parseDigits]
  | cons c rest ih =>
    intro acc
    obtain ⟨k, hk, hc⟩ := hxs c (List.mem_cons_self _ _)
    have hv : digitValue 10 c = some k := by
      rw [hc]; exact (digitChar_facts k hk).2.2.2.2.2.2.2.2
    have hrest : ∀ c ∈ rest, ∃ k, k < 10 ∧ c = Nat.digitChar k :=
      fun x hx => hxs x (List.mem_cons_of_mem _ hx)
    simp only [List.cons_append, parseDigits, hv]
    exact ih hrest _

theorem toDigitsCore_spec :
    ∀ (fuel n : Nat) (ds : List Char), n < fuel →
      ∃ xs : List Char, Nat.toDigitsCore 10 fuel n ds = xs ++ ds ∧ xs ≠ [] ∧
        (∀ c ∈ xs, ∃ k, k < 10 ∧ c = Nat.digitChar k) ∧
        (∀ acc, parseDigits 10 xs acc = acc * 10 ^ xs.length + n) := by
  intro fuel
  induction fuel with
  | zero => intro n ds h; omega
  | succ fuel ih =>
    intro n ds h
    have hmod : n % 10 < 10 := Nat.mod_lt _ (by decide)
    have hv : digitValue 10 (Nat.digitChar (n % 10)) = some (n % 10) :=
      (digitChar_facts _ hmod).2.2.2.2.2.2.2.2
    by_cases h0 : n / 10 = 0
    · refine ⟨[Nat.digitChar (n % 10)], ?_, by simp, ?_, ?_⟩
      · simp [Nat.toDigitsCore, h0]
      · intro c hc
        exact ⟨n % 10, hmod, List.mem_singleton.mp hc⟩
      · intro acc
        simp only [parseDigits, hv, List.length_singleton, pow_one]
        omega
    · obtain ⟨xs, e1, e2, e3, e4⟩ :=
        ih (n / 10) (Nat.digitChar (n % 10) :: ds) (by omega)
      refine ⟨xs ++ [Nat.digitChar (n % 10)], ?_, by simp, ?_, ?_⟩
      · simp [Nat.toDigitsCore, h0, e1]
      · intro c hc
        rcases List.mem_append.mp hc with hc | hc
        · exact e3 c hc
        · exact ⟨n % 10, hmod, List.mem_singleton.mp hc⟩
      · intro acc
        rw [parseDigits_append xs e3, e4]
        simp only [parseDigits, hv, List.length_append, List.length_singleton, pow_succ]
        have := Nat.div_add_mod n 10
        nlinarith [this]

theorem numberToString_data (n : Nat) :
    ∃ xs : List Char, (numberToString n).data = xs ∧ xs ≠ [] ∧
      (∀ c ∈ xs, ∃ k, k < 10 ∧ c = Nat.digitChar k) ∧
      parseDigits 10 xs 0 = n := by
  obtain ⟨xs, e1, e2, e3, e4⟩ := toDigitsCore_spec (n + 1) n [] (by omega)
  refine ⟨xs, ?_, e2, e3, ?_⟩
  · simp [numberToString, Nat.repr, Nat.toDigits, e1, List.asString]
  · simpa using e4 0

theorem parseInt_digits (xs : List Char) (hne : xs ≠ [])
    (hxs : ∀ c ∈ xs, ∃ k, k < 10 ∧ c = Nat.digitChar k) :
    parseInt xs = JSVal.num (parseDigits 10 xs 0 : Nat) := by
  cases xs with
  | nil => exact absurd rfl hne
  | cons c rest =>
    obtain ⟨k, hk, hc⟩ := hxs c (List.mem_cons_self _ _)
    obtain ⟨_, _, hws, _, hminus, hplus, _, _, hv⟩ := digitChar_facts k hk
    rw [← hc] at hws hminus hplus hv
    have hradix : parseRadix (c :: rest) = (10, c :: rest) := by
      cases rest with
      | nil => rfl
      | cons d rest2 =>
        obtain ⟨j, hj, hd⟩ := hxs d (by simp)
        obtain ⟨_, _, _, _, _, _, hx, hX, _⟩ := digitChar_facts j hj
        rw [← hd] at hx hX
        simp [parseRadix, hx, hX]
    simp [parseInt, List.dropWhile, hws, parseSign, hminus, hplus, hradix, hv]

/-! ## The title pattern -/

theorem isWordChar_colon : isWordChar ':' = false := by decide

theorem matchWordColon_cons (c : Char) (rest : List Char) (hc : isWordChar c = true) :
    matchWordColon (c :: rest) =
      match matchWordColon rest with
      | some g => some (c :: g)
      | none => if rest.head? = some ':' then some [c] else none := by
  rw [matchWordColon]
  simp only [hc, if_true]

theorem matchWordColon_append (w : List Char) (hne : w ≠ [])
    (hw : ∀ c ∈ w, isWordChar c = true) (r : List Char) :
    matchWordColon (w ++ ':' :: r) = some w := by
  induction w with
  | nil => exact absurd rfl hne
  | cons c rest ih =>
    have hc : isWordChar c = true := hw c (List.mem_cons_self _ _)
    rw [List.cons_append, matchWordColon_cons c _ hc]
    cases rest with
    | nil =>
      simp [matchWordColon, isWordChar_colon]
    | cons d rest2 =>
      rw [ih (by simp) (fun x hx => hw x (List.mem_cons_of_mem _ hx))]

theorem matchPattern_cons (c : Char) (rest : List Char) (hc : isLineTerminator c = false) :
    matchPattern (c :: rest) =
      match matchPattern rest with
      | some (g1, g2) => some (c :: g1, g2)
      | none => (matchHash rest).map (fun g2 => ([c], g2)) := by
  rw [matchPattern]
  simp only [hc, Bool.false_eq_true, if_false]
  cases matchPattern rest with
  | some m => rfl
  | none =>
    cases matchHash rest with
    | some g2 => rfl
    | none => rfl

theorem matchPattern_append_reach (pre : List Char) (hne : pre ≠ [])
    (hpre : ∀ c ∈ pre, isLineTerminator c = false) (rest g2 : List Char)
    (hp : matchPattern rest = none) (hh : matchHash rest = some g2) :
    matchPattern (pre ++ rest) = some (pre, g2) := by
  induction pre with
  | nil => exact absurd rfl hne
  | cons c more ih =>
    have hc : isLineTerminator c = false := hpre c (List.mem_cons_self _ _)
    rw [List.cons_append, matchPattern_cons c _ hc]
    cases more with
    | nil =>
      simp only [List.nil_append, hp, hh]
      rfl
    | cons d more2 =>
      rw [ih (by simp) (fun x hx => hpre x (List.mem_cons_of_mem _ hx))]

theorem matchPattern_append_none (pre : List Char)
    (hhash : ∀ c ∈ pre, c ≠ '#') (rest : List Char)
    (hp : matchPattern rest = none) (hh : matchHash rest = none) :
    matchPattern (pre ++ rest) = none ∧ matchHash (pre ++ rest) = none := by
  induction pre with
  | nil => exact ⟨hp, hh⟩
  | cons c more ih =>
    obtain ⟨ih1, ih2⟩ := ih (fun x hx => hhash x (List.mem_cons_of_mem _ hx))
    have hc : c ≠ '#' := hhash c (List.mem_cons_self _ _)
    refine ⟨?_, by simp [matchHash, hc]⟩
    by_cases hl : isLineTerminator c = true
    · simp [matchPattern, hl]
    · rw [List.cons_append, matchPattern_cons c _ (by simpa using hl), ih1, ih2]
      rfl

theorem mentionsIssue_eq_false (s : List Char) :
    mentionsIssue s = false ↔ matchHash s = none ∧ matchPattern s = none := by
  induction s with
  | nil => simp [mentionsIssue, matchHash, matchPattern]
  | cons c rest ih =>
    by_cases hc : isLineTerminator c = true
    · have hp : matchPattern (c :: rest) = none := by simp [matchPattern, hc]
      simp [mentionsIssue, hc, hp]
    · have hc2 : isLineTerminator c = false := by simpa using hc
      rw [matchPattern_cons c rest hc2]
      simp only [mentionsIssue, hc2, Bool.not_false, Bool.true_and, Bool.or_eq_false_iff, ih]
      cases matchPattern rest with
      | some m => simp
      | none =>
        cases matchHash rest with
        | some g2 => simp
        | none => simp

theorem regexpExec_of_matchPattern (s : List Char) (m : List Char × List Char)
    (h : matchPattern s = some m) : regexpExec s = some m := by
  cases s with
  | nil => simp [matchPattern] at h
  | cons c rest => simp [regexpExec, h]

/-- The match of the pattern on a title `<repo>#<digits>: <text>`. -/
theorem regexpExec_title (repo digits text : List Char) (hrepo : repo ≠ [])
    (hline : ∀ c ∈ repo, isLineTerminator c = false)
    (hdne : digits ≠ []) (hdigits : ∀ c ∈ digits, ∃ k, k < 10 ∧ c = Nat.digitChar k)
    (htext : mentionsIssue text = false) :
    regexpExec (repo ++ '#' :: (digits ++ ':' :: ' ' :: text)) = some (repo, digits) := by
  obtain ⟨ht1, ht2⟩ := (mentionsIssue_eq_false text).mp htext
  have hword : ∀ c ∈ digits, isWordChar c = true := by
    intro c hc
    obtain ⟨k, hk, e⟩ := hdigits c hc
    rw [e]; exact (digitChar_facts k hk).1
  have hdline : ∀ c ∈ digits, isLineTerminator c = false := by
    intro c hc
    obtain ⟨k, hk, e⟩ := hdigits c hc
    rw [e]; exact (digitChar_facts k hk).2.1
  have hdhash : ∀ c ∈ digits, c ≠ '#' := by
    intro c hc
    obtain ⟨k, hk, e⟩ := hdigits c hc
    rw [e]; exact (digitChar_facts k hk).2.2.2.1
  -- nothing matches from the digits on
  have h1 := matchPattern_append_none [':', ' '] (by decide) text ht2 ht1
  have h2 := matchPattern_append_none digits hdhash _ h1.1 h1.2
  simp only [List.cons_append, List.nil_append] at h2
  -- so group 1 cannot reach past the `#` that follows the repo
  have h3 : matchPattern ('#' :: (digits ++ ':' :: ' ' :: text)) = none := by
    rw [matchPattern_cons '#' _ (by decide), h2.1, h2.2]
    rfl
  have h3h : matchHash ('#' :: (digits ++ ':' :: ' ' :: text)) = some digits := by
    simp only [matchHash, if_true]
    exact matchWordColon_append digits hdne hword _
  apply regexpExec_of_matchPattern
  exact matchPattern_append_reach repo hrepo hline _ digits h3 h3h

/-! ## What a match of the title pattern looks like -/

theorem matchWordColon_sound :
    ∀ (s g : List Char), matchWordColon s = some g →
      ∃ r, s = g ++ ':' :: r ∧ g ≠ [] ∧ ∀ c ∈ g, isWordChar c = true := by
  intro s
  induction s with
  | nil => intro g h; simp [matchWordColon] at h
  | cons c rest ih =>
    intro g h
    by_cases hc : isWordChar c = true
    · rw [matchWordColon_cons c rest hc] at h
      cases hm : matchWordColon rest with
      | some g0 =>
        rw [hm] at h
        simp only [Option.some.injEq] at h
        obtain ⟨r, e1, _, e3⟩ := ih g0 hm
        subst h
        refine ⟨r, by rw [e1]; rfl, by simp, ?_⟩
        intro x hx
        rcases List.mem_cons.mp hx with hx | hx
        · rw [hx]; exact hc
        · exact e3 x hx
      | none =>
        rw [hm] at h
        cases rest with
        | nil => simp at h
        | cons d rest2 =>
          by_cases hd : d = ':'
          · subst hd
            simp only [List.head?_cons, if_true, Option.some.injEq] at h
            subst h
            exact ⟨rest2, rfl, by simp, by simpa using hc⟩
          · simp [hd] at h
    · simp [matchWordColon, hc] at h

theorem matchHash_sound (s g : List Char) (h : matchHash s = some g) :
    ∃ r, s = '#' :: (g ++ ':' :: r) ∧ g ≠ [] ∧ ∀ c ∈ g, isWordChar c = true := by
  cases s with
  | nil => simp [matchHash] at h
  | cons c rest =>
    by_cases hc : c = '#'
    · subst hc
      simp only [matchHash, if_true] at h
      obtain ⟨r, e1, e2, e3⟩ := matchWordColon_sound rest g h
      exact ⟨r, by rw [e1], e2, e3⟩
    · simp [matchHash, hc] at h

theorem matchPattern_sound :
    ∀ (s g1 g2 : List Char), matchPattern s = some (g1, g2) →
      ∃ r, s = g1 ++ '#' :: (g2 ++ ':' :: r) ∧ g1 ≠ [] ∧
        (∀ c ∈ g1, isLineTerminator c = false) ∧ g2 ≠ [] ∧
        ∀ c ∈ g2, isWordChar c = true := by
  intro s
  induction s with
  | nil => intro g1 g2 h; simp [matchPattern] at h
  | cons c rest ih =>
    intro g1 g2 h
    by_cases hc : isLineTerminator c = true
    · simp [matchPattern, hc] at h
    · have hc2 : isLineTerminator c = false := by simpa using hc
      rw [matchPattern_cons c rest hc2] at h
      cases hm : matchPattern rest with
      | some m =>
        obtain ⟨m1, m2⟩ := m
        rw [hm] at h
        simp only [Option.some.injEq, Prod.mk.injEq] at h
        obtain ⟨h1, h2⟩ := h
        subst h1 h2
        obtain ⟨r, e1, _, e3, e4, e5⟩ := ih m1 m2 hm
        refine ⟨r, by rw [e1]; rfl, by simp, ?_, e4, e5⟩
        intro x hx
        rcases List.mem_cons.mp hx with hx | hx
        · rw [hx]; exact hc2
        · exact e3 x hx
      | none =>
        rw [hm] at h
        cases hh : matchHash rest with
        | none => rw [hh] at h; simp at h
        | some g =>
          rw [hh] at h
          simp only [Option.map_some', Option.some.injEq, Prod.mk.injEq] at h
          obtain ⟨h1, h2⟩ := h
          subst h1 h2
          obtain ⟨r, e1, e2, e3⟩ := matchHash_sound rest g hh
          exact ⟨r, by rw [e1]; rfl, by simp, by simpa using hc2, e2, e3⟩

theorem regexpExec_sound :
    ∀ (s g1 g2 : List Char), regexpExec s = some (g1, g2) →
      ∃ skipped r, s = skipped ++ (g1 ++ '#' :: (g2 ++ ':' :: r)) ∧ g1 ≠ [] ∧
        (∀ c ∈ g1, isLineTerminator c = false) ∧ g2 ≠ [] ∧
        ∀ c ∈ g2, isWordChar c = true := by
  intro s
  induction s with
  | nil => intro g1 g2 h; simp [regexpExec] at h
  | cons c rest ih =>
    intro g1 g2 h
    rw [regexpExec] at h
    cases hm : matchPattern (c :: rest) with
    | some m =>
      rw [hm] at h
      simp only [Option.some.injEq] at h
      subst h
      obtain ⟨r, e⟩ := matchPattern_sound (c :: rest) g1 g2 hm
      exact ⟨[], r, e⟩
    | none =>
      rw [hm] at h
      obtain ⟨skipped, r, e1, e2⟩ := ih g1 g2 h
      exact ⟨c :: skipped, r, by rw [e1]; rfl, e2⟩

/-- A title without `#`, or without a `:` after a `#`, does not match. -/
theorem regexpExec_none_of_unmarked (s : List Char)
    (h : '#' ∉ s ∨ ∀ a b, s = a ++ '#' :: b → ':' ∉ b) :
    regexpExec s = none := by
  cases hm : regexpExec s with
  | none => rfl
  | some m =>
    obtain ⟨g1, g2⟩ := m
    obtain ⟨skipped, r, e, _⟩ := regexpExec_sound s g1 g2 hm
    rcases h with h | h
    · exact absurd (by rw [e]; simp) h
    · exact absurd (by simp) (h (skipped ++ g1) (g2 ++ ':' :: r) (by rw [e]; simp))

/-! ## The destination reader on a list of pages -/

theorem getIssuesLoop_skip_middle (page : Page) (first : RichText) (more : List RichText)
    (hT : page.Task = first :: more) (hR : regexpExec first.content.data = none)
    (after : List Page) (before : List Page) :
    ∀ acc, getIssuesLoop (before ++ page :: after) acc = getIssuesLoop (before ++ after) acc := by
  induction before with
  | nil =>
    intro acc
    exact getIssuesLoop_skip page after acc first more hT hR
  | cons p rest ih =>
    intro acc
    simp only [List.cons_append]
    cases hpT : p.Task with
    | nil => rw [getIssuesLoop_untitled p _ acc hpT, getIssuesLoop_untitled p _ acc hpT]
    | cons f ms =>
      cases hpR : regexpExec f.content.data with
      | none =>
        rw [getIssuesLoop_skip p _ acc f ms hpT hpR, getIssuesLoop_skip p _ acc f ms hpT hpR]
        exact ih acc
      | some m =>
        obtain ⟨m1, m2⟩ := m
        cases hpP : p.Projects with
        | nil =>
          rw [getIssuesLoop_unrelated p _ acc f ms hpT _ hpR hpP,
            getIssuesLoop_unrelated p _ acc f ms hpT _ hpR hpP]
        | cons rel rels =>
          rw [getIssuesLoop_push p _ acc f ms hpT m1 m2 hpR rel rels hpP,
            getIssuesLoop_push p _ acc f ms hpT m1 m2 hpR rel rels hpP]
          exact ih _

/-- A page that has a title item, the first of which has no `#` or no `:`
after a `#`, adds no record and raises no error: the reader returns what it
returns without the page. -/
theorem getIssuesFromNotionDatabase_skips_unmarked (page : Page) (first : RichText)
    (more : List RichText) (hT : page.Task = first :: more)
    (h : '#' ∉ first.content.data ∨ ∀ a b, first.content.data = a ++ '#' :: b → ':' ∉ b)
    (before after : List Page) :
    getIssuesFromNotionDatabase (before ++ page :: after) =
      getIssuesFromNotionDatabase (before ++ after) :=
  getIssuesLoop_skip_middle page first more hT
    (regexpExec_none_of_unmarked _ h) after before []

theorem getIssuesLoop_untitled_mem (page : Page) (hT : page.Task = []) (pages : List Page)
    (hmem : page ∈ pages) :
    ∀ acc index, getIssuesLoop pages acc ≠ Except.ok index := by
  induction pages with
  | nil => simp at hmem
  | cons p rest ih =>
    intro acc index h
    cases hpT : p.Task with
    | nil => rw [getIssuesLoop_untitled p rest acc hpT] at h; cases h
    | cons f ms =>
      have hrest : page ∈ rest := by
        rcases List.mem_cons.mp hmem with e | e
        · rw [← e, hT] at hpT; cases hpT
        · exact e
      cases hpR : regexpExec f.content.data with
      | none =>
        rw [getIssuesLoop_skip p rest acc f ms hpT hpR] at h
        exact ih hrest acc index h
      | some m =>
        obtain ⟨m1, m2⟩ := m
        cases hpP : p.Projects with
        | nil => rw [getIssuesLoop_unrelated p rest acc f ms hpT _ hpR hpP] at h; cases h
        | cons rel rels =>
          rw [getIssuesLoop_push p rest acc f ms hpT m1 m2 hpR rel rels hpP] at h
          exact ih hrest _ index h

/-! ## Claims on the diff engine and the status -/

/-- C1 (the code departs from the claim): on an index built by
`getIssuesFromNotionDatabase`, `getNotionOperations` puts every issue in
`pagesToCreate` and nothing in `pagesToUpdate`, whether or not a record of the
index has the issue's repo and number: it reads the property `pageID`, and
the records carry the page id under `pageId`. -/
theorem getNotionOperations_reader_index_all_create (pages : List Page)
    (index : List JSObject) (issues : List Issue) (repo : String)
    (h : getIssuesFromNotionDatabase pages = Except.ok index) :
    getNotionOperations index issues repo =
      { pagesToCreate := issues, pagesToUpdate := [] } :=
  getNotionOperations_of_reader pages index h issues repo

/-- C1 at the input of the claim: the page `p1` titled `r1#5: Fix bug` gives
the index record `{repo: "r1", issueNumber: 5, pageId: "p1"}`, and the issues
5 and 6 of `r1` are both classified as creations. -/
theorem getNotionOperations_reader_index_all_create_witness :
    getIssuesFromNotionDatabase
        [{ id := "p1", Task := [{ content := "r1#5: Fix bug" }], Projects := [{ id := "proj" }] }]
      = Except.ok [notionIssue "p1" (JSVal.num 5) "proj" "r1"] ∧
    getNotionOperations [notionIssue "p1" (JSVal.num 5) "proj" "r1"]
        [{ number := 5, title := "Fix bug", state := "open", comment_count := 0,
           url := "u5", assignees := [] },
         { number := 6, title := "Add docs", state := "open", comment_count := 0,
           url := "u6", assignees := [] }] "r1"
      = { pagesToCreate :=
            [{ number := 5, title := "Fix bug", state := "open", comment_count := 0,
               url := "u5", assignees := [] },
             { number := 6, title := "Add docs", state := "open", comment_count := 0,
               url := "u6", assignees := [] }]
          pagesToUpdate := [] } :=
  ⟨rfl,
   getNotionOperations_reader_index_all_create
     [{ id := "p1", Task := [{ content := "r1#5: Fix bug" }], Projects := [{ id := "proj" }] }]
     _ _ "r1" rfl⟩

/-- C2 (the code departs from the claim): when the index is read back from
pages that store exactly the payloads `getPropertiesFromIssue` computed for
the issues, the next `getNotionOperations` on the same issues puts all of them
in `pagesToCreate` again and none in `pagesToUpdate`. -/
theorem second_run_creates_every_issue_again (env : Env) (users : List User)
    (project repo : String) (issues : List Issue) (ids : List String)
    (index : List JSObject)
    (h : getIssuesFromNotionDatabase
          (List.zipWith storedPage ids
            (issues.map (fun i => getPropertiesFromIssue env i users project repo)))
        = Except.ok index) :
    (getNotionOperations index issues repo).pagesToCreate = issues ∧
    (getNotionOperations index issues repo).pagesToUpdate = [] := by
  rw [getNotionOperations_of_reader _ index h issues repo]
  exact ⟨rfl, rfl⟩

/-- C2 at a concrete input: issue 5 of `r1`, stored on page `p1`, is read
back as the record `{repo: "r1", issueNumber: 5, pageId: "p1"}` and is
classified as a creation on the second run. -/
theorem second_run_creates_every_issue_again_witness :
    getIssuesFromNotionDatabase
        (List.zipWith storedPage ["p1"]
          ([({ number := 5, title := "Fix bug", state := "open", comment_count := 0,
               url := "u5", assignees := [] } : Issue)].map
            (fun i => getPropertiesFromIssue
              { NOTION_DATABASE_TASKS_ID := some "db", GITHUB_USERNAMES := none,
                NOTION_USERNAMES := none } i [] "proj" "r1")))
      = Except.ok [notionIssue "p1" (JSVal.num 5) "proj" "r1"] ∧
    (getNotionOperations [notionIssue "p1" (JSVal.num 5) "proj" "r1"]
        [{ number := 5, title := "Fix bug", state := "open", comment_count := 0,
           url := "u5", assignees := [] }] "r1").pagesToCreate
      = [{ number := 5, title := "Fix bug", state := "open", comment_count := 0,
           url := "u5", assignees := [] }] ∧
    (getNotionOperations [notionIssue "p1" (JSVal.num 5) "proj" "r1"]
        [{ number := 5, title := "Fix bug", state := "open", comment_count := 0,
           url := "u5", assignees := [] }] "r1").pagesToUpdate = [] :=
  ⟨rfl,
   second_run_creates_every_issue_again
     { NOTION_DATABASE_TASKS_ID := some "db", GITHUB_USERNAMES := none,
       NOTION_USERNAMES := none } [] "proj" "r1" _ ["p1"] _ rfl⟩

/-- C4: for an issue whose state is `open` or `closed`, `getIssueStatus`
returns `Done` when the state is `closed` (whatever the assignees),
`Not started` when it is `open` with no assignee, `In progress` when it is
`open` with at least one assignee; and it returns one of these three values. -/
theorem getIssueStatus_spec (issue : Issue)
    (h : issue.state = "open" ∨ issue.state = "closed") :
    (issue.state = "closed" → getIssueStatus issue = "Done") ∧
    (issue.state = "open" → issue.assignees = [] → getIssueStatus issue = "Not started") ∧
    (issue.state = "open" → 1 ≤ issue.assignees.length →
      getIssueStatus issue = "In progress") ∧
    (getIssueStatus issue = "Done" ∨ getIssueStatus issue = "Not started" ∨
      getIssueStatus issue = "In progress") := by
  have hne : ("open" : String) ≠ "closed" := by decide
  refine ⟨?_, ?_, ?_, ?_⟩
  · intro hc
    simp [getIssueStatus, hc]
  · intro ho ha
    simp [getIssueStatus, ho, ha, hne]
  · intro ho ha
    have : issue.assignees.length ≠ 0 := by omega
    simp only [getIssueStatus, ho, hne, if_false, this, ne_eq, not_false_eq_true, if_true]
  · rcases h with ho | hc
    · by_cases ha : issue.assignees.length = 0
      · right; left
        simp [getIssueStatus, ho, ha, hne]
      · right; right
        simp only [getIssueStatus, ho, hne, if_false, ha, ne_eq, not_false_eq_true, if_true]
    · left
      simp [getIssueStatus, hc]

/-- C4 at a closed issue with an assignee: the status is `Done`. -/
theorem getIssueStatus_spec_witness :
    getIssueStatus { number := 1, title := "t", state := "closed", comment_count := 0,
                     url := "u", assignees := [{ login := "alice" }] } = "Done" :=
  (getIssueStatus_spec
    { number := 1, title := "t", state := "closed", comment_count := 0,
      url := "u", assignees := [{ login := "alice" }] } (Or.inr rfl)).1 rfl

/-- C10: for every index, repository and issue list, `getNotionOperations`
splits the issues by one test on the issue: `pagesToCreate` is the issues
that fail it and `pagesToUpdate`, without the `pageId` field, the issues that
pass it, both in input order.  So every position of the input goes to exactly
one of the two lists, the two lengths add up to the length of the input
(equal numbers are not merged), and both lists are subsequences of the
input. -/
theorem getNotionOperations_partition (index : List JSObject) (issues : List Issue)
    (repo : String) :
    (∃ p : Issue → Bool,
      (getNotionOperations index issues repo).pagesToCreate = issues.filter (fun i => !p i) ∧
      ((getNotionOperations index issues repo).pagesToUpdate.map PageToUpdate.issue)
        = issues.filter p) ∧
    (getNotionOperations index issues repo).pagesToCreate.length +
      (getNotionOperations index issues repo).pagesToUpdate.length = issues.length ∧
    List.Sublist (getNotionOperations index issues repo).pagesToCreate issues ∧
    List.Sublist ((getNotionOperations index issues repo).pagesToUpdate.map PageToUpdate.issue)
      issues := by
  rw [getNotionOperations_eq]
  have hmap : ∀ l : List Issue,
      (l.map (fun i => ({ issue := i, pageId := pageIdFor (notionIssuesOf index repo) i }
        : PageToUpdate))).map PageToUpdate.issue = l := by
    intro l
    simp [List.map_map, Function.comp_def]
  refine ⟨⟨fun i => (pageIdFor (notionIssuesOf index repo) i).truthy, rfl, ?_⟩, ?_, ?_, ?_⟩
  · exact hmap _
  · simp only [List.length_map]
    have := List.length_eq_length_filter_add (l := issues)
      (fun i => (pageIdFor (notionIssuesOf index repo) i).truthy)
    omega
  · exact List.filter_sublist _
  · simp only [hmap]
    exact List.filter_sublist _

/-- C10 at a concrete input: against an index record that has a `pageID`, the
issues 5, 5 and 6 of `r1` give two updates (the number 5 twice, not merged)
and one creation, in input order. -/
theorem getNotionOperations_partition_witness :
    getNotionOperations
        [[("repo", JSVal.str "r1"), ("issueNumber", JSVal.num 5), ("pageID", JSVal.str "p1")]]
        [sampleIssue 5, sampleIssue 5, sampleIssue 6] "r1"
      = { pagesToCreate := [sampleIssue 6]
          pagesToUpdate := [{ issue := sampleIssue 5, pageId := JSVal.str "p1" },
                            { issue := sampleIssue 5, pageId := JSVal.str "p1" }] } ∧
    (getNotionOperations
        [[("repo", JSVal.str "r1"), ("issueNumber", JSVal.num 5), ("pageID", JSVal.str "p1")]]
        [sampleIssue 5, sampleIssue 5, sampleIssue 6] "r1").pagesToCreate.length +
      (getNotionOperations
        [[("repo", JSVal.str "r1"), ("issueNumber", JSVal.num 5), ("pageID", JSVal.str "p1")]]
        [sampleIssue 5, sampleIssue 5, sampleIssue 6] "r1").pagesToUpdate.length
      = [sampleIssue 5, sampleIssue 5, sampleIssue 6].length :=
  ⟨by decide,
   (getNotionOperations_partition
      [[("repo", JSVal.str "r1"), ("issueNumber", JSVal.num 5), ("pageID", JSVal.str "p1")]]
      [sampleIssue 5, sampleIssue 5, sampleIssue 6] "r1").2.1⟩

/-! ## Claim on the assignees -/

/-- C5: when both username lists are configured, `getAssignees` returns, in
the order of `issue.assignees`, one person per assignee that resolves at
every stage (its login occurs in the source-username list, at its first index
the destination-username list has a name, a user of the snapshot has exactly
that name; the id is that of the first such user), and nothing for an
assignee that does not.  With source `alice`, destination `Alice W` and the
user `Alice W` of id `u1`, an issue assigned to `alice` gives `[{id: u1}]` and
an issue assigned to `bob` gives `[]`. -/
theorem getAssignees_spec (env : Env) (g n : String) (issue : Issue) (users : List User)
    (hg : env.GITHUB_USERNAMES = some g) (hn : env.NOTION_USERNAMES = some n) :
    ∃ f : Assignee → Option Person,
      (∀ a p, f a = some p ↔ ResolvesTo (split g) (split n) users a.login p) ∧
      getAssignees env issue users = issue.assignees.filterMap f := by
  refine ⟨resolveAssignee (split g) (split n) users, ?_, ?_⟩
  · intro a p
    exact resolveAssignee_iff _ _ _ a p
  · simp [getAssignees, hg, hn, foldl_pushAssignee]

/-- C5 at the input of the claim. -/
theorem getAssignees_spec_witness :
    (∃ f : Assignee → Option Person,
      (∀ a p, f a = some p ↔
        ResolvesTo (split "alice") (split "Alice W") [{ id := "u1", name := "Alice W" }]
          a.login p) ∧
      getAssignees
          { NOTION_DATABASE_TASKS_ID := none, GITHUB_USERNAMES := some "alice",
            NOTION_USERNAMES := some "Alice W" }
          { number := 1, title := "t", state := "open", comment_count := 0, url := "u",
            assignees := [{ login := "alice" }] }
          [{ id := "u1", name := "Alice W" }]
        = List.filterMap f [{ login := "alice" }]) ∧
    getAssignees
        { NOTION_DATABASE_TASKS_ID := none, GITHUB_USERNAMES := some "alice",
          NOTION_USERNAMES := some "Alice W" }
        { number := 1, title := "t", state := "open", comment_count := 0, url := "u",
          assignees := [{ login := "alice" }] }
        [{ id := "u1", name := "Alice W" }]
      = [{ id := "u1" }] ∧
    getAssignees
        { NOTION_DATABASE_TASKS_ID := none, GITHUB_USERNAMES := some "alice",
          NOTION_USERNAMES := some "Alice W" }
        { number := 2, title := "t", state := "open", comment_count := 0, url := "u",
          assignees := [{ login := "bob" }] }
        [{ id := "u1", name := "Alice W" }]
      = [] :=
  ⟨getAssignees_spec
      { NOTION_DATABASE_TASKS_ID := none, GITHUB_USERNAMES := some "alice",
        NOTION_USERNAMES := some "Alice W" } "alice" "Alice W"
      { number := 1, title := "t", state := "open", comment_count := 0, url := "u",
        assignees := [{ login := "alice" }] }
      [{ id := "u1", name := "Alice W" }] rfl rfl,
   by decide, by decide⟩

/-! ## Claim on the pagination -/

/-- C6: when the remote answers with a chain of `n ≥ 1` responses, every one
of the first `n - 1` carrying a cursor and the `n`-th carrying none (and
whatever it would answer afterwards), `getPages` and `getUserList` return; they
make exactly `n` requests, the first without a cursor and each next one with
the cursor of the response before; and they return the concatenation of the
results of the `n` responses in order.  A response carries a cursor when the
test `!next_cursor` of the loop fails. -/
theorem pagination_spec {α : Type} (dbID : Option String)
    (chain : List (QueryResponse α)) (last : QueryResponse α)
    (later : List (QueryResponse α))
    (hchain : ∀ r ∈ chain, noCursor r.next_cursor = false)
    (hlast : noCursor last.next_cursor = true) :
    getPages dbID (chain ++ last :: later) =
      some (((chain ++ [last]).map (fun r => r.results)).flatten,
            (none :: chain.map (fun r => r.next_cursor)).map
              (fun c => { database_id := dbID, start_cursor := c })) ∧
    getUserList (chain ++ last :: later) =
      some (((chain ++ [last]).map (fun r => r.results)).flatten,
            (none :: chain.map (fun r => r.next_cursor)).map
              (fun c => { start_cursor := c })) ∧
    ((none :: chain.map (fun r => r.next_cursor)).map
      (fun c => ({ database_id := dbID, start_cursor := c } : DatabaseQuery))).length
        = (chain ++ [last]).length := by
  refine ⟨?_, ?_, by simp⟩
  · unfold getPages
    rw [getPagesLoop_chain dbID chain last later hlast hchain]
    simp
  · unfold getUserList
    rw [getUserListLoop_chain chain last later hlast hchain]
    simp

/-- C6 at the input of the claim: pages of 2, 2 and 1 items give the 5 items
in order after 3 requests. -/
theorem pagination_spec_witness :
    getPages (some "db")
        [{ results := [1, 2], next_cursor := some "c1" },
         { results := [3, 4], next_cursor := some "c2" },
         { results := [5], next_cursor := none }]
      = some ([1, 2, 3, 4, 5],
          [{ database_id := some "db", start_cursor := none },
           { database_id := some "db", start_cursor := some "c1" },
           { database_id := some "db", start_cursor := some "c2" }]) ∧
    getUserList
        [{ results := [1, 2], next_cursor := some "c1" },
         { results := [3, 4], next_cursor := some "c2" },
         { results := [5], next_cursor := none }]
      = some ([1, 2, 3, 4, 5],
          [{ start_cursor := none }, { start_cursor := some "c1" },
           { start_cursor := some "c2" }]) :=
  ⟨(pagination_spec (some "db")
      [{ results := [1, 2], next_cursor := some "c1" },
       { results := [3, 4], next_cursor := some "c2" }]
      { results := [5], next_cursor := none } []
      (by decide) (by decide)).1,
   (pagination_spec (some "db")
      [{ results := [1, 2], next_cursor := some "c1" },
       { results := [3, 4], next_cursor := some "c2" }]
      { results := [5], next_cursor := none } []
      (by decide) (by decide)).2.1⟩

/-! ## Claims on the batch writer -/

/-- C7: `createPages` and `updatePages` run over the batches
`_.chunk(operations, OPERATION_BATCH_SIZE)`, with `OPERATION_BATCH_SIZE = 10`,
and for every operation list these batches are consecutive slices whose
concatenation in batch order is the list; every batch is non-empty and has at
most 10 elements, every batch but the last has exactly 10, and there are
`ceil(n / 10)` batches (none for the empty list). -/
theorem batches_partition (env : Env) (fails : Nat → Bool) (users : List User)
    (project repo : String) (st : Notion)
    (pagesToCreate : List Issue) (pagesToUpdate : List PageToUpdate) :
    OPERATION_BATCH_SIZE = 10 ∧
    createPages env fails pagesToCreate users project repo st =
      writeBatches fails
        (fun issue => WriteCall.create env.NOTION_DATABASE_TASKS_ID
          (getPropertiesFromIssue env issue users project repo))
        (chunk pagesToCreate OPERATION_BATCH_SIZE) st ∧
    updatePages env fails pagesToUpdate users project repo st =
      writeBatches fails
        (fun p => WriteCall.update p.pageId
          (getPropertiesFromIssue env p.issue users project repo))
        (chunk pagesToUpdate OPERATION_BATCH_SIZE) st ∧
    IsBatchPartition pagesToCreate (chunk pagesToCreate OPERATION_BATCH_SIZE) ∧
    IsBatchPartition pagesToUpdate (chunk pagesToUpdate OPERATION_BATCH_SIZE) ∧
    chunk ([] : List Issue) OPERATION_BATCH_SIZE = [] :=
  ⟨rfl, rfl, rfl, chunk_isBatchPartition pagesToCreate,
    chunk_isBatchPartition pagesToUpdate, rfl⟩

/-- C7 at the input of the claim: 25 operations give batches of sizes 10, 10
and 5, and these batches are a partition in the sense above. -/
theorem batches_partition_witness :
    IsBatchPartition ((List.range 25).map sampleIssue)
      (chunk ((List.range 25).map sampleIssue) OPERATION_BATCH_SIZE) ∧
    (chunk ((List.range 25).map sampleIssue) OPERATION_BATCH_SIZE).map List.length
      = [10, 10, 5] :=
  ⟨(batches_partition sampleEnv (fun _ => false) [] "proj" "r1"
      { issued := [], applied := [] } ((List.range 25).map sampleIssue) []).2.2.2.1,
   by decide⟩

/-- C8: `createPages` and `updatePages` run their batches in sequence, with a
log of the issued write calls.  If a write of batch `k` fails (and none of an
earlier batch does), the run returns an error, the issued writes are exactly
those of the batches `1..k` (no write of a later batch is issued), and the
writes of the batches before `k` stay applied; if no write fails, the run
succeeds and every operation is issued exactly once, in order. -/
theorem batch_failure_semantics (env : Env) (users : List User) (project repo : String)
    (pagesToCreate : List Issue) (pagesToUpdate : List PageToUpdate) :
    BatchFailureSemantics
      (fun fails st => createPages env fails pagesToCreate users project repo st)
      ((chunk pagesToCreate OPERATION_BATCH_SIZE).map
        (List.map (createCall env users project repo))) ∧
    BatchFailureSemantics
      (fun fails st => updatePages env fails pagesToUpdate users project repo st)
      ((chunk pagesToUpdate OPERATION_BATCH_SIZE).map
        (List.map (updateCall env users project repo))) :=
  ⟨writeBatches_semantics _ _, writeBatches_semantics _ _⟩

/-- C8 at the input of the specification: of 25 creations, the one with
sequence number 12 (in batch 2) fails; the run ends with an error after
issuing the 20 writes of batches 1 and 2, none of batch 3, and the 10 writes
of batch 1 stay applied. -/
theorem batch_failure_semantics_witness :
    ∃ st1 : Notion,
      createPages sampleEnv (fun k => decide (k = 12)) ((List.range 25).map sampleIssue)
          [] "proj" "r1" { issued := [], applied := [] }
        = (Except.error JSError.rejected, st1) ∧
      st1.issued = ((List.range 20).map sampleIssue).map (createCall sampleEnv [] "proj" "r1") ∧
      ∃ extra, st1.applied =
        ((List.range 10).map sampleIssue).map (createCall sampleEnv [] "proj" "r1") ++ extra := by
  obtain ⟨st1, h1, h2, extra, h3, _⟩ :=
    (batch_failure_semantics sampleEnv [] "proj" "r1" ((List.range 25).map sampleIssue) []).1.1
      (fun k => decide (k = 12)) { issued := [], applied := [] }
      [((List.range 10).map sampleIssue).map (createCall sampleEnv [] "proj" "r1")]
      ((((List.range 20).map sampleIssue).drop 10).map (createCall sampleEnv [] "proj" "r1"))
      [((((List.range 25).map sampleIssue).drop 20).map (createCall sampleEnv [] "proj" "r1"))]
      (by decide) (by decide) ⟨2, by decide, by decide⟩
  exact ⟨st1, h1, h2, extra, h3⟩

/-! ## Claims on the destination reader -/

/-- C3 (as amended): for every non-empty repo name containing no `#` and no
line terminator, every issue number `n` that is a safe integer
(`n ≤ MAX_SAFE_INTEGER`) and every issue title that has no `#`, word
characters, `:` run before its first line terminator, the reader, applied to a
page that stores the payload of `getPropertiesFromIssue` (title
`<repo>#<n>: <title>`), yields one record with that repo, `issueNumber` equal
to `n`, and the page's id and project. -/
theorem title_round_trip (env : Env) (users : List User) (project repo id : String)
    (issue : Issue) (hrepo : repo ≠ "") (_hhash : '#' ∉ repo.data)
    (hline : ∀ c ∈ repo.data, isLineTerminator c = false)
    (_hsafe : issue.number ≤ MAX_SAFE_INTEGER)
    (htext : mentionsIssue issue.title.data = false) :
    getIssuesFromNotionDatabase
        [storedPage id (getPropertiesFromIssue env issue users project repo)]
      = Except.ok [notionIssue id (JSVal.num issue.number) project repo] := by
  obtain ⟨digits, e1, e2, e3, e4⟩ := numberToString_data issue.number
  have hne : repo.data ≠ [] := by
    intro h
    apply hrepo
    cases repo with
    | mk data => simp only at h; subst h; rfl
  have htitle : (repo ++ "#" ++ numberToString issue.number ++ ": " ++ issue.title).data
      = repo.data ++ '#' :: (digits ++ ':' :: ' ' :: issue.title.data) := by
    simp only [String.data_append, e1, List.append_assoc]
    rfl
  have hexec := regexpExec_title repo.data digits issue.title.data hne hline e2 e3 htext
  rw [← htitle] at hexec
  unfold getIssuesFromNotionDatabase
  rw [getIssuesLoop_push
    (storedPage id (getPropertiesFromIssue env issue users project repo)) [] []
    { content := repo ++ "#" ++ numberToString issue.number ++ ": " ++ issue.title } [] rfl
    repo.data digits hexec { id := project } [] rfl]
  rw [parseInt_digits digits e2 e3, e4]
  rfl

/-- C3 at the input of the claim: `acme/widgets#42: Fix bug` is read back as
repo `acme/widgets`, issue number 42. -/
theorem title_round_trip_witness :
    getIssuesFromNotionDatabase
        [storedPage "p1" (getPropertiesFromIssue sampleEnv
          { number := 42, title := "Fix bug", state := "open", comment_count := 0,
            url := "u", assignees := [] } [] "proj" "acme/widgets")]
      = Except.ok [notionIssue "p1" (JSVal.num 42) "proj" "acme/widgets"] :=
  title_round_trip sampleEnv [] "proj" "acme/widgets" "p1"
    { number := 42, title := "Fix bug", state := "open", comment_count := 0,
      url := "u", assignees := [] }
    (by decide) (by decide) (by decide) (by decide) (by decide)

/-- C3 as stated fails on two inputs.  With repo `r`, number 5 and title
`see #7: foo`, the stored title `r#5: see #7: foo` is read back as repo
`r#5: see `, issue number 7: the greedy first group runs to the last `#` that
is followed by word characters and `:`.  With the repo name `a`, line feed,
`b` and number 5, the title is read back as repo `b`: `.` does not match a
line terminator. -/
theorem title_round_trip_counterexample :
    ("r" ≠ "" ∧ '#' ∉ "r".data ∧
      getIssuesFromNotionDatabase
          [storedPage "p1" (getPropertiesFromIssue sampleEnv
            { number := 5, title := "see #7: foo", state := "open", comment_count := 0,
              url := "u", assignees := [] } [] "proj" "r")]
        = Except.ok [notionIssue "p1" (JSVal.num 7) "proj" "r#5: see "] ∧
      notionIssue "p1" (JSVal.num 7) "proj" "r#5: see "
        ≠ notionIssue "p1" (JSVal.num 5) "proj" "r") ∧
    (String.mk ['a', Char.ofNat 10, 'b'] ≠ "" ∧
      '#' ∉ (String.mk ['a', Char.ofNat 10, 'b']).data ∧
      getIssuesFromNotionDatabase
          [storedPage "p1" (getPropertiesFromIssue sampleEnv
            { number := 5, title := "Fix bug", state := "open", comment_count := 0,
              url := "u", assignees := [] } [] "proj" (String.mk ['a', Char.ofNat 10, 'b']))]
        = Except.ok [notionIssue "p1" (JSVal.num 5) "proj" "b"] ∧
      notionIssue "p1" (JSVal.num 5) "proj" "b"
        ≠ notionIssue "p1" (JSVal.num 5) "proj" (String.mk ['a', Char.ofNat 10, 'b'])) :=
  ⟨⟨by decide, by decide, rfl, by decide⟩, ⟨by decide, by decide, rfl, by decide⟩⟩

/-- C9 (the code departs from the claim): a page of the task database whose
title is empty (its `title` array has no item, so the title has no `#`) makes
`getIssuesFromNotionDatabase` throw, whatever the other pages are: the reader
returns no index. -/
theorem untitled_page_aborts_reader (page : Page) (pages : List Page)
    (hT : page.Task = []) (hmem : page ∈ pages) (index : List JSObject) :
    getIssuesFromNotionDatabase pages ≠ Except.ok index :=
  getIssuesLoop_untitled_mem page hT pages hmem [] index

/-- C9 at a concrete input: a tracked page followed by an untitled page; the
reader ends with a `TypeError`, while without the untitled page it returns the
record of the tracked page. -/
theorem untitled_page_aborts_reader_witness :
    (∀ index, getIssuesFromNotionDatabase
        [{ id := "p1", Task := [{ content := "r1#5: Fix bug" }], Projects := [{ id := "proj" }] },
         { id := "p2", Task := [], Projects := [] }] ≠ Except.ok index) ∧
    getIssuesFromNotionDatabase
        [{ id := "p1", Task := [{ content := "r1#5: Fix bug" }], Projects := [{ id := "proj" }] },
         { id := "p2", Task := [], Projects := [] }] = Except.error JSError.typeError ∧
    getIssuesFromNotionDatabase
        [{ id := "p1", Task := [{ content := "r1#5: Fix bug" }], Projects := [{ id := "proj" }] }]
      = Except.ok [notionIssue "p1" (JSVal.num 5) "proj" "r1"] :=
  ⟨fun index => untitled_page_aborts_reader { id := "p2", Task := [], Projects := [] }
      [{ id := "p1", Task := [{ content := "r1#5: Fix bug" }], Projects := [{ id := "proj" }] },
       { id := "p2", Task := [], Projects := [] }] rfl (by simp) index,
   rfl, rfl⟩

end NotionGithub
